import Mathlib

/-!
Verification of the annotation state engine of WebMediaAnnotator
(packages/core/src/Store.ts, LinkSync.ts, index.ts sync binding).

Modelling conventions.
JS numbers that only ever get copied or compared are modelled as Int
(frames, coordinates) or Nat (durations, stroke widths); no floating point
arithmetic is performed by the modelled operations.  Optional object
properties are modelled as Option, with none standing for the property
being undefined; object spread then replaces all properties of the source
record.  JS arrays are modelled as Lean lists with value semantics; the one
place where the source relies on array object identity (the in-place
mutation performed by injectRemoteAnnotationChange on snapshot arrays that
can alias the live array) is modelled separately by a reference-aware heap
model (RStore below).  The history and redo stacks keep the newest snapshot
at the head of the list, mirroring the JS arrays reversed: the JS push/pop
at the end become cons/uncons at the head, and the JS shift that discards
the oldest entry becomes dropLast.

Name changes forced by the proof environment: the TS interface Annotation
is called Ann here, the field annotations is called anns, and the Store
methods addAnnotation, updateAnnotation, deleteAnnotation,
injectRemoteAnnotationChange, getAnnotationsForFrame are called addAnn,
updateAnn, deleteAnn, injectRemoteAnnChange, getAnnsForFrame.
-/

/-- A point of a freehand path (source: the points entries of Annotation). -/
structure Pt where
  x : Int
  y : Int
  p : Option Int
deriving DecidableEq

/-- The style record of an annotation (source: Annotation.style). -/
structure AnnStyle where
  color : String
  width : Nat
  fill : Option String
  fontSize : Option Nat
deriving DecidableEq

/-- The optional transform record of an annotation (source: Annotation.transform). -/
structure AnnTransform where
  x : Int
  y : Int
  scaleX : Int
  scaleY : Int
  rotation : Int
deriving DecidableEq

/-- One drawn object (source: interface Annotation in Store.ts).  The type
field ranges over the closed set of shape kind strings. -/
structure Ann where
  id : String
  frame : Int
  duration : Option Nat
  type : String
  points : Option (List Pt)
  text : Option String
  fallbackPaths : Option (List String)
  style : AnnStyle
  transform : Option AnnTransform
deriving DecidableEq

/-- A partial update of an annotation (source: Partial of Annotation).  An
outer none means the property is absent from the updates object, so spread
keeps the existing value; an outer some overrides the property. -/
structure AnnPatch where
  id : Option String
  frame : Option Int
  duration : Option (Option Nat)
  type : Option String
  points : Option (Option (List Pt))
  text : Option (Option String)
  fallbackPaths : Option (Option (List String))
  style : Option AnnStyle
  transform : Option (Option AnnTransform)
deriving DecidableEq

/-- The all-absent partial update. -/
def emptyAnnPatch : AnnPatch :=
  ⟨none, none, none, none, none, none, none, none, none⟩

/-- Object spread of a partial update over an annotation (source: the
spread expression that merges an annotation with an updates object). -/
def applyAnnPatch (a : Ann) (p : AnnPatch) : Ann :=
  { id := p.id.getD a.id
    frame := p.frame.getD a.frame
    duration := p.duration.getD a.duration
    type := p.type.getD a.type
    points := p.points.getD a.points
    text := p.text.getD a.text
    fallbackPaths := p.fallbackPaths.getD a.fallbackPaths
    style := p.style.getD a.style
    transform := p.transform.getD a.transform }

/-- The partial update carrying every field of a full annotation; this is
what the source passes to updateAnnotation during reconciliation, where the
updates argument is a whole annotation object. -/
def Ann.toPatch (a : Ann) : AnnPatch :=
  ⟨some a.id, some a.frame, some a.duration, some a.type, some a.points,
   some a.text, some a.fallbackPaths, some a.style, some a.transform⟩

/-- The viewport record (source: AppState.viewport). -/
structure Viewport where
  x : Int
  y : Int
  scale : Int
deriving DecidableEq

/-- The whole application state (source: interface AppState in Store.ts).
The buffered ranges are pairs of start and end values. -/
structure AppState where
  isPlaying : Bool
  currentTime : Int
  currentFrame : Int
  duration : Int
  fps : Int
  volume : Int
  startFrame : Int
  anns : List Ann
  selectedAnnIds : List String
  activeTool : String
  activeColor : String
  activeStrokeWidth : Nat
  defaultDuration : Nat
  holdDuration : Nat
  isOnionSkinEnabled : Bool
  onionSkinPrevFrames : Nat
  onionSkinNextFrames : Nat
  viewport : Viewport
  mediaType : Option String
  buffered : List (Int × Int)
deriving DecidableEq

/-- Source: the DEFAULT_STATE constant of Store.ts. -/
def DEFAULT_STATE : AppState :=
  { isPlaying := false
    currentTime := 0
    currentFrame := 0
    duration := 0
    fps := 24
    volume := 1
    startFrame := 0
    anns := []
    selectedAnnIds := []
    activeTool := "select"
    activeColor := "#FF0000"
    activeStrokeWidth := 3
    defaultDuration := 1
    holdDuration := 1
    isOnionSkinEnabled := false
    onionSkinPrevFrames := 3
    onionSkinNextFrames := 3
    viewport := ⟨0, 0, 1⟩
    mediaType := some "video"
    buffered := [] }

/-- A partial AppState as accepted by setState (source: Partial of
AppState); an outer none means the field is absent from the partial. -/
structure StatePatch where
  isPlaying : Option Bool
  currentTime : Option Int
  currentFrame : Option Int
  duration : Option Int
  fps : Option Int
  volume : Option Int
  startFrame : Option Int
  anns : Option (List Ann)
  selectedAnnIds : Option (List String)
  activeTool : Option String
  activeColor : Option String
  activeStrokeWidth : Option Nat
  defaultDuration : Option Nat
  holdDuration : Option Nat
  isOnionSkinEnabled : Option Bool
  onionSkinPrevFrames : Option Nat
  onionSkinNextFrames : Option Nat
  viewport : Option Viewport
  mediaType : Option (Option String)
  buffered : Option (List (Int × Int))
deriving DecidableEq

/-- The all-absent partial AppState. -/
def emptyStatePatch : StatePatch :=
  ⟨none, none, none, none, none, none, none, none, none, none,
   none, none, none, none, none, none, none, none, none, none⟩

/-- Object spread of a partial AppState over a state (source: the state
merging expression inside setState). -/
def applyStatePatch (st : AppState) (p : StatePatch) : AppState :=
  { isPlaying := p.isPlaying.getD st.isPlaying
    currentTime := p.currentTime.getD st.currentTime
    currentFrame := p.currentFrame.getD st.currentFrame
    duration := p.duration.getD st.duration
    fps := p.fps.getD st.fps
    volume := p.volume.getD st.volume
    startFrame := p.startFrame.getD st.startFrame
    anns := p.anns.getD st.anns
    selectedAnnIds := p.selectedAnnIds.getD st.selectedAnnIds
    activeTool := p.activeTool.getD st.activeTool
    activeColor := p.activeColor.getD st.activeColor
    activeStrokeWidth := p.activeStrokeWidth.getD st.activeStrokeWidth
    defaultDuration := p.defaultDuration.getD st.defaultDuration
    holdDuration := p.holdDuration.getD st.holdDuration
    isOnionSkinEnabled := p.isOnionSkinEnabled.getD st.isOnionSkinEnabled
    onionSkinPrevFrames := p.onionSkinPrevFrames.getD st.onionSkinPrevFrames
    onionSkinNextFrames := p.onionSkinNextFrames.getD st.onionSkinNextFrames
    viewport := p.viewport.getD st.viewport
    mediaType := p.mediaType.getD st.mediaType
    buffered := p.buffered.getD st.buffered }

/-- The partial update used by setState calls that replace only the
annotation collection. -/
def annsPatch (l : List Ann) : StatePatch :=
  { emptyStatePatch with anns := some l }

/-- The destructuring in applyStateReconciliation that drops annotations
from a target state and keeps every other field (source: the rest object
passed to the final setState). -/
def restPatch (t : AppState) : StatePatch :=
  { isPlaying := some t.isPlaying
    currentTime := some t.currentTime
    currentFrame := some t.currentFrame
    duration := some t.duration
    fps := some t.fps
    volume := some t.volume
    startFrame := some t.startFrame
    anns := none
    selectedAnnIds := some t.selectedAnnIds
    activeTool := some t.activeTool
    activeColor := some t.activeColor
    activeStrokeWidth := some t.activeStrokeWidth
    defaultDuration := some t.defaultDuration
    holdDuration := some t.holdDuration
    isOnionSkinEnabled := some t.isOnionSkinEnabled
    onionSkinPrevFrames := some t.onionSkinPrevFrames
    onionSkinNextFrames := some t.onionSkinNextFrames
    viewport := some t.viewport
    mediaType := some t.mediaType
    buffered := some t.buffered }

/-- Events emitted by the Store (source: the emit calls of Store.ts).  The
stateChanged event carries the new and the previous state. -/
inductive Event where
  | stateChanged (newState oldState : AppState)
  | added (a : Ann) (fromRemote : Bool)
  | updated (id : String) (updates : AnnPatch) (fromRemote : Bool)
  | deleted (id : String) (fromRemote : Bool)
deriving DecidableEq

/-- The Store with its private history fields (source: class Store).  The
stacks keep the newest snapshot first; see the header comment. -/
structure Store where
  state : AppState
  historyStack : List AppState
  redoStack : List AppState
  isUndoing : Bool
deriving DecidableEq

/-- The Store constructor: merge the initial partial over DEFAULT_STATE and
seed the history with one snapshot of the result. -/
def Store.make (p : StatePatch) : Store :=
  let st := applyStatePatch DEFAULT_STATE p
  ⟨st, [st], [], false⟩

/-- Whether some annotation of the list carries the given id. -/
def hasId (l : List Ann) (id : String) : Bool :=
  l.any (fun a => a.id == id)

/-- First annotation of the list with the given id. -/
def findAnn (l : List Ann) (id : String) : Option Ann :=
  l.find? (fun a => a.id == id)

/-- Lookup in the JS Map built from the list by id: insertion order means a
later entry overwrites an earlier one, so the lookup finds the last
matching element. -/
def mapGetAnn (l : List Ann) (id : String) : Option Ann :=
  l.reverse.find? (fun a => a.id == id)

/-- The three shapes of a remote change walked into the snapshots (source:
the action argument of injectRemoteAnnotationChange, together with its data
payload). -/
inductive RemoteAct where
  | addA (a : Ann)
  | updA (p : AnnPatch)
  | delA
deriving DecidableEq

/-- Replace the first annotation with the given id by its patched version
(source: the findIndex plus index assignment of the update branch of
injectRemoteAnnotationChange). -/
def updateFirstAnn (id : String) (p : AnnPatch) : List Ann → List Ann
  | [] => []
  | a :: rest =>
      if a.id == id then applyAnnPatch a p :: rest else a :: updateFirstAnn id p rest

/-- Apply one remote change to one snapshot (source: the body of the
updateStack closure of injectRemoteAnnotationChange). -/
def injectIntoSnap (id : String) (act : RemoteAct) (snap : AppState) : AppState :=
  match act with
  | RemoteAct.addA a =>
      if hasId snap.anns id then snap else { snap with anns := snap.anns ++ [a] }
  | RemoteAct.updA p => { snap with anns := updateFirstAnn id p snap.anns }
  | RemoteAct.delA => { snap with anns := snap.anns.filter (fun a => a.id != id) }

/-- Source: Store.injectRemoteAnnotationChange, which walks every snapshot
of the history stack and of the redo stack. -/
def Store.injectRemoteAnnChange (s : Store) (id : String) (act : RemoteAct) : Store :=
  { s with
    historyStack := s.historyStack.map (injectIntoSnap id act)
    redoStack := s.redoStack.map (injectIntoSnap id act) }

/-- Source: Store.setState.  Merges the partial into the state and emits
one stateChanged event carrying the new and the previous state. -/
def Store.setState (s : Store) (p : StatePatch) : Store × List Event :=
  let prev := s.state
  let st := applyStatePatch s.state p
  ({ s with state := st }, [Event.stateChanged st prev])

/-- Source: Store.addAnnotation.  A remote add is first walked into every
snapshot, then the live collection is replaced by a copy with the
annotation appended, then the added event fires. -/
def Store.addAnn (s : Store) (a : Ann) (fromRemote : Bool) : Store × List Event :=
  let s0 := if fromRemote then s.injectRemoteAnnChange a.id (RemoteAct.addA a) else s
  let r := s0.setState (annsPatch (s0.state.anns ++ [a]))
  (r.1, r.2 ++ [Event.added a fromRemote])

/-- Source: Store.updateAnnotation.  Every annotation whose id matches is
replaced by its spread with the updates object. -/
def Store.updateAnn (s : Store) (id : String) (updates : AnnPatch) (fromRemote : Bool) :
    Store × List Event :=
  let s0 := if fromRemote then s.injectRemoteAnnChange id (RemoteAct.updA updates) else s
  let l := s0.state.anns.map (fun a => if a.id == id then applyAnnPatch a updates else a)
  let r := s0.setState (annsPatch l)
  (r.1, r.2 ++ [Event.updated id updates fromRemote])

/-- Source: Store.deleteAnnotation. -/
def Store.deleteAnn (s : Store) (id : String) (fromRemote : Bool) : Store × List Event :=
  let s0 := if fromRemote then s.injectRemoteAnnChange id RemoteAct.delA else s
  let r := s0.setState (annsPatch (s0.state.anns.filter (fun a => a.id != id)))
  (r.1, r.2 ++ [Event.deleted id fromRemote])

/-- Source: Store.captureSnapshot.  No-op while undoing; otherwise push the
current state, clear the redo stack, and discard the oldest entry when the
stack exceeds 50 entries.  With the newest snapshot at the head, the JS
shift of the oldest entry is dropLast. -/
def Store.captureSnapshot (s : Store) : Store :=
  if s.isUndoing then s
  else
    let h := s.state :: s.historyStack
    let h := if h.length > 50 then h.dropLast else h
    { s with historyStack := h, redoStack := [] }

/-- Source: the deletions forEach of Store.applyStateReconciliation: every
annotation of the captured current list whose id is missing from the
target map is deleted through the normal deleteAnnotation path. -/
def Store.reconcileDeletes (targetAnns : List Ann) : List Ann → Store → Store × List Event
  | [], s => (s, [])
  | a :: ts, s =>
      if hasId targetAnns a.id then Store.reconcileDeletes targetAnns ts s
      else
        let r1 := s.deleteAnn a.id false
        let r2 := Store.reconcileDeletes targetAnns ts r1.1
        (r2.1, r1.2 ++ r2.2)

/-- Source: the additions and updates forEach of
Store.applyStateReconciliation: a target annotation missing from the map of
the original current list is added; one found there is updated when the
stringified values differ, modelled as structural inequality. -/
def Store.reconcileUpserts (origCurrent : List Ann) : List Ann → Store → Store × List Event
  | [], s => (s, [])
  | t :: ts, s =>
      match mapGetAnn origCurrent t.id with
      | none =>
          let r1 := s.addAnn t false
          let r2 := Store.reconcileUpserts origCurrent ts r1.1
          (r2.1, r1.2 ++ r2.2)
      | some c =>
          if c ≠ t then
            let r1 := s.updateAnn t.id t.toPatch false
            let r2 := Store.reconcileUpserts origCurrent ts r1.1
            (r2.1, r1.2 ++ r2.2)
          else Store.reconcileUpserts origCurrent ts s

/-- Source: Store.applyStateReconciliation.  Deletions against the target,
then additions and updates from the target, then one setState applying
every non-annotation field of the target. -/
def Store.applyStateReconciliation (s : Store) (targetState : AppState) : Store × List Event :=
  let currentAnns := s.state.anns
  let r1 := Store.reconcileDeletes targetState.anns currentAnns s
  let r2 := Store.reconcileUpserts currentAnns targetState.anns r1.1
  let r3 := r2.1.setState (restPatch targetState)
  (r3.1, r1.2 ++ r2.2 ++ r3.2)

/-- Source: Store.undo.  Nothing happens with at most one history entry;
otherwise the top snapshot moves to the redo stack and the new top is
restored by reconciliation under the isUndoing guard. -/
def Store.undo (s : Store) : Store × List Event :=
  if s.historyStack.length ≤ 1 then (s, [])
  else
    match s.historyStack with
    | top :: prev :: rest =>
        let s1 : Store :=
          { s with isUndoing := true, historyStack := prev :: rest,
                   redoStack := top :: s.redoStack }
        let r := s1.applyStateReconciliation prev
        ({ r.1 with isUndoing := false }, r.2)
    | _ => (s, [])

/-- Source: Store.redo.  Nothing happens with an empty redo stack;
otherwise the top redo snapshot moves back onto the history stack and is
restored by reconciliation under the isUndoing guard. -/
def Store.redo (s : Store) : Store × List Event :=
  match s.redoStack with
  | [] => (s, [])
  | next :: rest =>
      let s1 : Store :=
        { s with isUndoing := true, redoStack := rest,
                 historyStack := next :: s.historyStack }
      let r := s1.applyStateReconciliation next
      ({ r.1 with isUndoing := false }, r.2)

/-- Native duration of an annotation (source: the a.duration or 1 fallback
of getAnnotationsForFrame; JS or treats 0 like undefined). -/
def nativeDuration (a : Ann) : Nat :=
  match a.duration with
  | none => 1
  | some d => if d = 0 then 1 else d

/-- The global hold window (source: the this.state.holdDuration or 1
fallback of getAnnotationsForFrame). -/
def globalWindow (st : AppState) : Nat :=
  if st.holdDuration = 0 then 1 else st.holdDuration

/- Basic facts about the patch operations. -/

/-- Source: Store.getAnnotationsForFrame.  An annotation is kept when the
frame lies between its start and its start plus its effective duration
minus one, the effective duration being the maximum of native duration and
global hold window. -/

def Store.getAnnsForFrame (s : Store) (frame : Int) : List Ann :=
  s.state.anns.filter (fun a =>
    let eff : Nat := max (nativeDuration a) (globalWindow s.state)
    decide (a.frame ≤ frame ∧ frame ≤ a.frame + (eff : Int) - 1))

/-- Sample annotation for the effective-duration examples: frame 10,
native duration 3. -/
def annC6 : Ann :=
  ⟨"a1", 10, some 3, "circle", none, none, none, ⟨"#FF0000", 3, none, none⟩, none⟩

/-- Store holding annC6 under hold duration 1. -/
def storeHold1 : Store :=
  Store.make { emptyStatePatch with anns := some [annC6], holdDuration := some 1 }

/-- Store holding annC6 under hold duration 5. -/
def storeHold5 : Store :=
  Store.make { emptyStatePatch with anns := some [annC6], holdDuration := some 5 }

/-- Witness for C9 at a concrete store and unknown id. -/
def annX : Ann :=
  ⟨"a", 0, none, "arrow", none, none, none, ⟨"#FF0000", 3, none, none⟩, none⟩

/-- Concrete store holding only annX. -/
def storeX : Store := Store.make { emptyStatePatch with anns := some [annX] }

/-- A connected user (source: interface SyncUser). -/
structure SyncUser where
  id : String
  name : String
  color : String
deriving DecidableEq

/-- The wire protocol messages (source: type Message of LinkSync.ts);
binary payloads travel as plain arrays of byte values. -/
inductive Msg where
  | syncStep1 (data : List Nat)
  | syncStep2 (data : List Nat)
  | update (data : List Nat)
  | announceUser (user : SyncUser)
  | playback (action : String) (frame : Option Int) (time : Option Int)
  | ping
deriving DecidableEq

/-- A peer channel with its open flag (source: the PeerJS DataConnection
entries of the connections map, keyed by peer id). -/
structure PeerConn where
  peer : String
  isOpen : Bool
deriving DecidableEq

/-- The host relay loop (source: the HOST RELAY LOGIC blocks of
handleMessage): forward the message to every other connection that is
open. -/
def relayToOthers (conns : List PeerConn) (sender : String) (m : Msg) : List (String × Msg) :=
  (conns.filter (fun c => c.peer != sender && c.isOpen)).map (fun c => (c.peer, m))

/-- Source: LinkSync.handleMessage, projected onto the channel sends it
performs.  The diffFn argument stands for the CRDT diff computation
against a received state vector; the merge effects of applying received
diffs to the document and the emitted local events are not modelled here.
A sync-step-1 message is answered to the sender with a sync-step-2 diff;
update, announce-user and playback messages are relayed by the host to
every other open connection; the announce-user branch runs only when the
user id is truthy, that is a non-empty string. -/
def handleMessage (isHost : Bool) (diffFn : List Nat → List Nat) (conns : List PeerConn)
    (senderConn : PeerConn) (m : Msg) : List (String × Msg) :=
  match m with
  | Msg.syncStep1 d =>
      if senderConn.isOpen then [(senderConn.peer, Msg.syncStep2 (diffFn d))] else []
  | Msg.syncStep2 _ => []
  | Msg.update _ => if isHost then relayToOthers conns senderConn.peer m else []
  | Msg.announceUser u =>
      if u.id ≠ "" then (if isHost then relayToOthers conns senderConn.peer m else []) else []
  | Msg.playback _ _ _ => if isHost then relayToOthers conns senderConn.peer m else []
  | Msg.ping => []

/-- The messages the amended relay claim ranges over: update and playback
always, announce-user only with a non-empty user id. -/
def relayableMsg : Msg → Bool
  | Msg.update _ => true
  | Msg.playback _ _ _ => true
  | Msg.announceUser u => u.id != ""
  | _ => false

/-- The transaction origin marker: a change merged by the sync layer
carries the LinkSync instance as origin, every locally initiated
transaction carries a different origin (source: the comparisons of
event.transaction.origin against this.sync and of origin against this). -/
inductive YOrigin where
  | fromSync
  | localOther
deriving DecidableEq

/-- The per-key change kinds reported by the replicated map observe
callback (source: the change.action strings add, update, delete). -/
inductive ChangeAct where
  | addK
  | updK
  | delK
deriving DecidableEq

/-- The Store mutations the observing bridge performs, with the fromRemote
flag they carry. -/
inductive StoreCall where
  | addCall (a : Ann) (fromRemote : Bool)
  | updCall (id : String) (a : Ann) (fromRemote : Bool)
  | delCall (id : String) (fromRemote : Bool)
deriving DecidableEq

/-- The fromRemote flag of a bridge call. -/
def StoreCall.isRemote : StoreCall → Bool
  | StoreCall.addCall _ r => r
  | StoreCall.updCall _ _ r => r
  | StoreCall.delCall _ r => r

/-- Lookup in the replicated annotation map. -/
def yMapGet (m : List (String × Ann)) (k : String) : Option Ann :=
  (m.find? (fun kv => kv.1 == k)).map (fun kv => kv.2)

/-- The bridge reaction to one changed key (source: the body of the
forEach over event.changes.keys in initSyncBinding).  An add or update
reads the current map entry and, when it exists and the transaction origin
is the sync instance, performs the matching Store mutation with fromRemote
true; a delete performs the delete when the origin is the sync instance. -/
def observeCallsFor (m : List (String × Ann)) (origin : YOrigin) (kc : String × ChangeAct) :
    List StoreCall :=
  match kc.2 with
  | ChangeAct.addK =>
      match yMapGet m kc.1 with
      | some ann => if origin = YOrigin.fromSync then [StoreCall.addCall ann true] else []
      | none => []
  | ChangeAct.updK =>
      match yMapGet m kc.1 with
      | some ann => if origin = YOrigin.fromSync then [StoreCall.updCall kc.1 ann true] else []
      | none => []
  | ChangeAct.delK =>
      if origin = YOrigin.fromSync then [StoreCall.delCall kc.1 true] else []

/-- Source: the annotationsMap observe callback of initSyncBinding, as the
sequence of Store mutations it performs over all changed keys. -/
def observeCalls (m : List (String × Ann)) (changes : List (String × ChangeAct))
    (origin : YOrigin) : List StoreCall :=
  (changes.map (observeCallsFor m origin)).flatten

/-- Source: the document update handler installed by the LinkSync
constructor: a document update whose origin is not the sync instance is a
local change and is broadcast to every open connection; an update whose
origin is the sync instance was applied from a peer and is not
re-broadcast. -/
def docUpdateSends (origin : YOrigin) (conns : List PeerConn) (data : List Nat) :
    List (String × Msg) :=
  if origin ≠ YOrigin.fromSync then
    (conns.filter (fun c => c.isOpen)).map (fun c => (c.peer, Msg.update data))
  else []

/-- An AppState reduced to the array reference it carries. -/
structure RAppState where
  annsRef : Nat
deriving DecidableEq

/-- The store with an explicit heap of annotation arrays. -/
structure RStore where
  heap : List (List Ann)
  rstate : RAppState
  rhistory : List RAppState
  rredo : List RAppState
deriving DecidableEq

/-- Source: the Store constructor: the state takes the default annotations
array and the seeded history snapshot is a shallow copy of the state, so
it holds the same array reference. -/
def RStore.init : RStore := ⟨[[]], ⟨0⟩, [⟨0⟩], []⟩

/-- Source: Store.getState returns a shallow copy of the state: a new
AppState object holding the same array reference. -/
def RStore.getState (s : RStore) : RAppState := ⟨s.rstate.annsRef⟩

/-- Dereference an array in the heap. -/
def heapArr (h : List (List Ann)) (r : RAppState) : List Ann := h.getD r.annsRef []

/-- Source: the add branch of the updateStack closure of
injectRemoteAnnotationChange: when no annotation of the snapshot array
carries the id, the annotation is pushed onto that array in place, which
mutates the array every holder of the reference sees. -/
def injectAddInto (a : Ann) (h : List (List Ann)) (snap : RAppState) : List (List Ann) :=
  let arr := h.getD snap.annsRef []
  if hasId arr a.id then h else h.set snap.annsRef (arr ++ [a])

/-- Source: Store.addAnnotation with fromRemote true: first the remote add
is walked into every history and redo snapshot by in-place pushes, then
setState builds a fresh array from the current live array (possibly just
mutated through aliasing) with the annotation appended. -/
def RStore.addAnnRemote (s : RStore) (a : Ann) : RStore :=
  let h1 := (s.rhistory ++ s.rredo).foldl (injectAddInto a) s.heap
  let newArr := (h1.getD s.rstate.annsRef []) ++ [a]
  { s with heap := h1 ++ [newArr], rstate := ⟨h1.length⟩ }

/-- Source: Store.captureSnapshot in the reference model: the pushed
shallow copy shares the live array reference (the cap and the redo clear
are as in the value model and irrelevant here). -/
def RStore.captureSnap (s : RStore) : RStore :=
  { s with rhistory := ⟨s.rstate.annsRef⟩ :: s.rhistory, rredo := [] }

/-- Whether an event is one of the granular annotation events, as opposed
to the stateChanged event a setState emits. -/
def isAnnEvent : Event → Bool
  | Event.stateChanged _ _ => false
  | _ => true

/-- The granular annotation events of a trace. -/
def annEvents (evs : List Event) : List Event := evs.filter isAnnEvent

/-- The stateChanged events of a trace. -/
def scEvents (evs : List Event) : List Event := evs.filter (fun e => !isAnnEvent e)

/-- The ids occurring in an annotation list. -/
def annIds (l : List Ann) : List String := l.map (fun a => a.id)

/-- A store with its live annotation collection replaced. -/
def Store.withAnns (s : Store) (l : List Ann) : Store :=
  { s with state := { s.state with anns := l } }

/-- The store staged by undo before reconciling: guard up, popped top
moved to the redo stack. -/
def undoStaged (s : Store) (top prev : AppState) (rest : List AppState) : Store :=
  { s with isUndoing := true, historyStack := prev :: rest, redoStack := top :: s.redoStack }

/-- The store staged by redo before reconciling: guard up, popped redo top
moved back onto the history stack. -/
def redoStaged (s : Store) (next : AppState) (rest : List AppState) : Store :=
  { s with isUndoing := true, redoStack := rest, historyStack := next :: s.historyStack }

/-- A store with the guard flag replaced. -/
def Store.withUndoFlag (s : Store) (b : Bool) : Store := { s with isUndoing := b }

/-- The delete operations the claim describes: one per annotation of the
current state whose id is absent from the target. -/
def specDeleteEvents (C T : List Ann) : List Event :=
  (C.filter (fun a => !hasId T a.id)).map (fun a => Event.deleted a.id false)

/-- The add and update operations the claim describes: per target
annotation, an add when its id is absent from the current state, an update
when present with structurally different fields. -/
def specUpsertEvents (C T : List Ann) : List Event :=
  T.filterMap (fun t =>
    match findAnn C t.id with
    | none => some (Event.added t false)
    | some c => if c = t then none else some (Event.updated t.id t.toPatch false))

/-- Second sample annotation: same id as annX with a different frame. -/
def annX2 : Ann :=
  ⟨"a", 5, none, "arrow", none, none, none, ⟨"#FF0000", 3, none, none⟩, none⟩

/-- Third sample annotation with a fresh id. -/
def annB : Ann :=
  ⟨"b", 1, some 2, "text", none, some "note", none, ⟨"#123456", 1, none, none⟩, none⟩

/-- Target state for the C2 witness. -/
def targetC2 : AppState := { DEFAULT_STATE with anns := [annX2, annB], holdDuration := 4 }

/-- Local annotation for the C1 scenario. -/
def annL1 : Ann :=
  ⟨"L1", 2, some 2, "circle", none, some "hello", none, ⟨"#00FF00", 2, none, none⟩, none⟩

/-- Remote annotation for the C1 scenario. -/
def annR : Ann :=
  ⟨"R", 4, none, "square", none, none, none, ⟨"#0000FF", 1, none, none⟩, none⟩

/-- State holding only annL1. -/
def stateWithL1 : AppState := { DEFAULT_STATE with anns := [annL1] }

/-- Counterexample store: the most recent snapshot S holds L1, but the
snapshot below it is the initial state without L1. -/
def storeC1 : Store := ⟨stateWithL1, [stateWithL1, DEFAULT_STATE], [], false⟩

/-- Witness store: both stored snapshots hold L1 with the same values. -/
def storeC1w : Store := ⟨stateWithL1, [stateWithL1, stateWithL1], [], false⟩


/-- Spreading a whole annotation over any annotation yields that
annotation. -/
theorem applyAnnPatch_toPatch (b a : Ann) : applyAnnPatch b a.toPatch = a := rfl

/-- A setState that only carries an annotation list replaces exactly the
annotation collection. -/
theorem applyStatePatch_annsPatch (st : AppState) (l : List Ann) :
    applyStatePatch st (annsPatch l) = { st with anns := l } := rfl

/-- The rest patch of a target replaces every field except the annotation
collection. -/
theorem applyStatePatch_restPatch (st t : AppState) :
    applyStatePatch st (restPatch t) = { t with anns := st.anns } := rfl

/-- Walking a remote change into the stacks leaves the live state alone in
the value model (the reference model RStore below shows how the original
code can break this through array aliasing). -/
theorem injectRemoteAnnChange_state (s : Store) (id : String) (act : RemoteAct) :
    (s.injectRemoteAnnChange id act).state = s.state := rfl

/-- Projections of updateAnn. -/
theorem updateAnn_fst_state_anns (s : Store) (id : String) (p : AnnPatch) (r : Bool) :
    (s.updateAnn id p r).1.state.anns
      = s.state.anns.map (fun a => if a.id == id then applyAnnPatch a p else a) := by
  cases r <;> rfl

/-- Projections of deleteAnn. -/
theorem deleteAnn_fst_state_anns (s : Store) (id : String) (r : Bool) :
    (s.deleteAnn id r).1.state.anns = s.state.anns.filter (fun a => a.id != id) := by
  cases r <;> rfl

/-- Projections of addAnn. -/
theorem addAnn_fst_state_anns (s : Store) (a : Ann) (r : Bool) :
    (s.addAnn a r).1.state.anns = s.state.anns ++ [a] := by
  cases r <;> rfl

/-- The native duration is at least one frame. -/
theorem one_le_nativeDuration (a : Ann) : 1 ≤ nativeDuration a := by
  cases h : a.duration <;> simp [nativeDuration, h]
  split <;> omega

/-- The effective window the code computes agrees with a maximum against
the raw hold duration, because a zero hold duration is treated as one and
the native duration is at least one. -/
theorem effWindow_eq (a : Ann) (st : AppState) :
    max (nativeDuration a) (globalWindow st) = max (nativeDuration a) st.holdDuration := by
  unfold globalWindow
  split
  · next h =>
      rw [h, Nat.max_eq_left (one_le_nativeDuration a), Nat.max_eq_left (Nat.zero_le _)]
  · rfl

/-- C6.  Effective duration rule: getAnnsForFrame returns exactly the
annotations whose window, the maximum of native duration and session hold
duration, covers the frame; with frame 10 and duration 3 the annotation is
visible on frames 10 to 12 under hold 1 and through frame 14 under hold 5,
and invisible on frames 9, 13 and 15 respectively. -/
theorem C6_effective_duration_rule :
    (∀ (s : Store) (f : Int) (a : Ann),
      a ∈ s.getAnnsForFrame f ↔
        a ∈ s.state.anns ∧ a.frame ≤ f ∧
          f ≤ a.frame + ((max (nativeDuration a) s.state.holdDuration : Nat) : Int) - 1)
    ∧ annC6 ∈ storeHold1.getAnnsForFrame 10
    ∧ annC6 ∈ storeHold1.getAnnsForFrame 11
    ∧ annC6 ∈ storeHold1.getAnnsForFrame 12
    ∧ annC6 ∉ storeHold1.getAnnsForFrame 9
    ∧ annC6 ∉ storeHold1.getAnnsForFrame 13
    ∧ annC6 ∈ storeHold5.getAnnsForFrame 13
    ∧ annC6 ∈ storeHold5.getAnnsForFrame 14
    ∧ annC6 ∉ storeHold5.getAnnsForFrame 15
    ∧ annC6 ∉ storeHold5.getAnnsForFrame 9 := by
  refine ⟨?_, by decide, by decide, by decide, by decide, by decide, by decide, by decide,
    by decide, by decide⟩
  intro s f a
  rw [Store.getAnnsForFrame, List.mem_filter]
  simp only [decide_eq_true_eq, effWindow_eq]

/-- C9.  Unknown-id tolerance: updates and deletes addressed to an id that
no live annotation carries leave the live collection unchanged, for both
values of the fromRemote flag. -/
theorem C9_unknown_id_tolerance :
    ∀ (s : Store) (id : String) (p : AnnPatch) (fromRemote : Bool),
      (∀ a ∈ s.state.anns, a.id ≠ id) →
      (s.updateAnn id p fromRemote).1.state.anns = s.state.anns
        ∧ (s.deleteAnn id fromRemote).1.state.anns = s.state.anns := by
  intro s id p r h
  constructor
  · rw [updateAnn_fst_state_anns]
    conv_rhs => rw [← List.map_id s.state.anns]
    refine List.map_congr_left ?_
    intro a ha
    have : (a.id == id) = false := by simp [h a ha]
    simp [this]
  · rw [deleteAnn_fst_state_anns]
    refine List.filter_eq_self.mpr ?_
    intro a ha
    exact bne_iff_ne.mpr (h a ha)

/-- C9 witness: the hypothesis holds at storeX with id z, and the theorem
applies there. -/
theorem C9_witness :
    (∀ a ∈ storeX.state.anns, a.id ≠ "z")
    ∧ (storeX.updateAnn "z" emptyAnnPatch true).1.state.anns = storeX.state.anns
    ∧ (storeX.deleteAnn "z" true).1.state.anns = storeX.state.anns := by
  refine ⟨by decide, ?_⟩
  exact C9_unknown_id_tolerance storeX "z" emptyAnnPatch true (by decide)

/-- C10.  Boundary no-ops: undo with exactly one history snapshot and redo
with an empty redo stack return the store unchanged and emit nothing. -/
theorem C10_boundary_noops :
    ∀ s : Store,
      (s.historyStack.length = 1 → s.undo = (s, []))
      ∧ (s.redoStack = [] → s.redo = (s, [])) := by
  intro s
  constructor
  · intro h
    unfold Store.undo
    rw [if_pos (by omega)]
  · intro h
    unfold Store.redo
    rw [h]

/-- C10 witness: a fresh store has one history snapshot and an empty redo
stack, and both boundary calls are no-ops there. -/
theorem C10_witness :
    (Store.make emptyStatePatch).historyStack.length = 1
    ∧ (Store.make emptyStatePatch).redoStack = []
    ∧ (Store.make emptyStatePatch).undo = (Store.make emptyStatePatch, [])
    ∧ (Store.make emptyStatePatch).redo = (Store.make emptyStatePatch, []) :=
  ⟨rfl, rfl, (C10_boundary_noops (Store.make emptyStatePatch)).1 rfl,
    (C10_boundary_noops (Store.make emptyStatePatch)).2 rfl⟩

/-- C8 counterexample: an updates object is a Partial of the annotation
interface and may therefore carry an id field; the spread then replaces the
id of the matched annotation.  At storeX, updating annotation a with an
updates object whose id is b renames the annotation, so the id collection
changes. -/
theorem C8_counterexample :
    (storeX.updateAnn "a" { emptyAnnPatch with id := some "b" } false).1.state.anns.map Ann.id
      ≠ storeX.state.anns.map Ann.id := by decide

/-- C8 (amended).  For every call of updateAnn whose updates object does
not carry an id field, the id of every annotation in the collection is the
same after the call as before it (the other fields of matched annotations
are replaced according to the updates object). -/
theorem C8_id_immutability_amended :
    ∀ (s : Store) (id : String) (p : AnnPatch) (fromRemote : Bool),
      p.id = none →
      (s.updateAnn id p fromRemote).1.state.anns.map Ann.id = s.state.anns.map Ann.id := by
  intro s id p r hp
  rw [updateAnn_fst_state_anns, List.map_map]
  refine List.map_congr_left ?_
  intro a _
  by_cases h : (a.id == id) = true
  · simp [Function.comp, h, applyAnnPatch, hp]
  · simp [Function.comp, h]

/-- C8 witness: a patch without id applied at storeX keeps the id list. -/
theorem C8_witness :
    ({ emptyAnnPatch with frame := some 7 } : AnnPatch).id = none
    ∧ (storeX.updateAnn "a" { emptyAnnPatch with frame := some 7 } false).1.state.anns.map Ann.id
        = storeX.state.anns.map Ann.id :=
  ⟨rfl, C8_id_immutability_amended storeX "a" { emptyAnnPatch with frame := some 7 } false rfl⟩


/- Capture semantics. -/

/-- The capped push: when at most 50 snapshots are stored, capturing keeps
the newest 50 of the pushed stack, discarding from the oldest end. -/
theorem captureSnapshot_historyStack (s : Store) (h0 : s.isUndoing = false)
    (h1 : s.historyStack.length ≤ 50) :
    s.captureSnapshot.historyStack = (s.state :: s.historyStack).take 50 := by
  unfold Store.captureSnapshot
  rw [h0]
  simp only [Bool.false_eq_true, if_false]
  by_cases h : s.historyStack.length = 50
  · have hlen : (s.state :: s.historyStack).length = 51 := by simp [h]
    rw [if_pos (by omega), List.dropLast_eq_take, hlen]
  · have hlt : (s.state :: s.historyStack).length ≤ 50 := by simp; omega
    rw [if_neg (by omega), List.take_of_length_le hlt]

/-- Capturing never touches the live state. -/
theorem captureSnapshot_state (s : Store) : s.captureSnapshot.state = s.state := by
  unfold Store.captureSnapshot
  split <;> rfl

/-- Capturing never touches the undo guard. -/
theorem captureSnapshot_isUndoing (s : Store) : s.captureSnapshot.isUndoing = s.isUndoing := by
  unfold Store.captureSnapshot
  split <;> rfl

/-- Capturing outside the guard clears the redo stack. -/
theorem captureSnapshot_redoStack (s : Store) (h0 : s.isUndoing = false) :
    s.captureSnapshot.redoStack = [] := by
  unfold Store.captureSnapshot
  rw [h0]
  simp only [Bool.false_eq_true, if_false]

/-- Iterated captures: n consecutive captures push n copies of the live
state and keep the newest 50 entries of the result. -/
theorem captureSnapshot_iterate (n : Nat) :
    ∀ s : Store, s.isUndoing = false → s.historyStack.length ≤ 50 →
      (Store.captureSnapshot^[n] s).historyStack
          = (List.replicate n s.state ++ s.historyStack).take 50
        ∧ (Store.captureSnapshot^[n] s).state = s.state
        ∧ (Store.captureSnapshot^[n] s).isUndoing = false := by
  induction n with
  | zero =>
      intro s h0 h1
      exact ⟨by simpa using (List.take_of_length_le h1).symm, rfl, h0⟩
  | succ n ih =>
      intro s h0 h1
      obtain ⟨e1, e2, e3⟩ := ih s h0 h1
      have hlen : (Store.captureSnapshot^[n] s).historyStack.length ≤ 50 := by
        rw [e1, List.length_take]
        omega
      rw [Function.iterate_succ_apply']
      refine ⟨?_, ?_, ?_⟩
      · rw [captureSnapshot_historyStack _ e3 hlen, e1, e2, List.replicate_succ,
          List.cons_append]
        show (s.state :: ((List.replicate n s.state ++ s.historyStack).take 50)).take 50 = _
        rw [show (50 : Nat) = 49 + 1 from rfl, List.take_succ_cons, List.take_succ_cons,
          List.take_take]
        norm_num
      · rw [captureSnapshot_state, e2]
      · rw [captureSnapshot_isUndoing, e3]

/-- C5.  captureSnapshot semantics: a call during an undo or redo changes
nothing; otherwise it pushes the current state, clears the redo stack and
keeps the newest 50 snapshots, discarding the oldest ones, so that after
60 consecutive captures the stack holds the 50 newest entries and has
length at most 50. -/
theorem C5_captureSnapshot_semantics :
    ∀ s : Store,
      (s.isUndoing = true → s.captureSnapshot = s)
      ∧ (s.isUndoing = false → s.historyStack.length ≤ 50 →
          s.captureSnapshot.historyStack = (s.state :: s.historyStack).take 50
            ∧ s.captureSnapshot.redoStack = []
            ∧ s.captureSnapshot.state = s.state)
      ∧ (s.isUndoing = false → s.historyStack.length ≤ 50 →
          (Store.captureSnapshot^[60] s).historyStack
              = (List.replicate 60 s.state ++ s.historyStack).take 50
            ∧ (Store.captureSnapshot^[60] s).historyStack.length ≤ 50) := by
  intro s
  refine ⟨?_, ?_, ?_⟩
  · intro h
    unfold Store.captureSnapshot
    rw [h]
    simp
  · intro h0 h1
    exact ⟨captureSnapshot_historyStack s h0 h1, captureSnapshot_redoStack s h0,
      captureSnapshot_state s⟩
  · intro h0 h1
    obtain ⟨e1, _, _⟩ := captureSnapshot_iterate 60 s h0 h1
    refine ⟨e1, ?_⟩
    rw [e1, List.length_take]
    omega

/-- C5 witness: at a fresh store both hypotheses hold and the capture
behaves as stated. -/
theorem C5_witness :
    (Store.make emptyStatePatch).isUndoing = false
    ∧ (Store.make emptyStatePatch).historyStack.length ≤ 50
    ∧ (Store.make emptyStatePatch).captureSnapshot.historyStack
        = ((Store.make emptyStatePatch).state :: (Store.make emptyStatePatch).historyStack).take 50
    ∧ (Store.captureSnapshot^[60] (Store.make emptyStatePatch)).historyStack.length ≤ 50 :=
  ⟨rfl, by decide,
    ((C5_captureSnapshot_semantics (Store.make emptyStatePatch)).2.1 rfl (by decide)).1,
    ((C5_captureSnapshot_semantics (Store.make emptyStatePatch)).2.2 rfl (by decide)).2⟩


/- Peer session manager (source: LinkSync.ts). -/

/-- C3 counterexample: a host that receives an announce-user message whose
user id is the empty string relays nothing, although both guest channels
are open, so the other guest does not receive the message the claim
promises it. -/
theorem C3_counterexample :
    handleMessage true (fun d => d) [⟨"A", true⟩, ⟨"B", true⟩] ⟨"A", true⟩
        (Msg.announceUser ⟨"", "n", "#fff"⟩) = []
    ∧ ("B", Msg.announceUser (⟨"", "n", "#fff"⟩ : SyncUser))
        ∉ handleMessage true (fun d => d) [⟨"A", true⟩, ⟨"B", true⟩] ⟨"A", true⟩
            (Msg.announceUser ⟨"", "n", "#fff"⟩) := by
  refine ⟨rfl, ?_⟩
  intro h
  simp [handleMessage] at h

/-- C3 (amended).  Host relay fan-out: when the host receives an update or
playback message, or an announce-user message whose user id is non-empty,
it sends that exact message to every other open peer channel and never
back to the sender, and every send it performs targets an open channel of
another peer with the unchanged message; a guest never forwards a received
message to any channel. -/
theorem C3_host_relay_fanout_amended :
    ∀ (diffFn : List Nat → List Nat) (conns : List PeerConn) (senderConn : PeerConn) (m : Msg),
      (relayableMsg m = true →
        (∀ c ∈ conns, c.isOpen = true → c.peer ≠ senderConn.peer →
          (c.peer, m) ∈ handleMessage true diffFn conns senderConn m)
        ∧ (∀ x ∈ handleMessage true diffFn conns senderConn m,
            x.2 = m ∧ x.1 ≠ senderConn.peer
              ∧ ∃ c ∈ conns, c.peer = x.1 ∧ c.isOpen = true))
      ∧ (∀ x ∈ handleMessage false diffFn conns senderConn m, x.2 ≠ m) := by
  intro diffFn conns senderConn m
  constructor
  · intro hm
    have hrelay :
        handleMessage true diffFn conns senderConn m = relayToOthers conns senderConn.peer m := by
      cases m with
      | update d => rfl
      | playback a f t => rfl
      | announceUser u =>
          have : u.id ≠ "" := by simpa [relayableMsg, bne_iff_ne] using hm
          simp [handleMessage, this]
      | syncStep1 d => simp [relayableMsg] at hm
      | syncStep2 d => simp [relayableMsg] at hm
      | ping => simp [relayableMsg] at hm
    rw [hrelay]
    constructor
    · intro c hc hopen hne
      unfold relayToOthers
      refine List.mem_map.mpr ⟨c, ?_, rfl⟩
      refine List.mem_filter.mpr ⟨hc, ?_⟩
      simp [hopen, bne_iff_ne, hne]
    · intro x hx
      unfold relayToOthers at hx
      obtain ⟨c, hcf, hcx⟩ := List.mem_map.mp hx
      obtain ⟨hc, hcond⟩ := List.mem_filter.mp hcf
      have h1 : c.peer ≠ senderConn.peer := by
        have := (Bool.and_eq_true _ _).mp hcond
        exact bne_iff_ne.mp this.1
      have h2 : c.isOpen = true := ((Bool.and_eq_true _ _).mp hcond).2
      refine ⟨by rw [← hcx], by rw [← hcx]; exact h1, c, hc, by rw [← hcx], h2⟩
  · intro x hx hxm
    cases m with
    | syncStep1 d =>
        by_cases ho : senderConn.isOpen = true
        · simp [handleMessage, ho] at hx
          rw [hx] at hxm
          simp at hxm
        · simp [handleMessage] at hx
          exact ho hx.1
    | syncStep2 d => simp [handleMessage] at hx
    | update d => simp [handleMessage] at hx
    | announceUser u =>
        by_cases hu : u.id = ""
        · simp [handleMessage, hu] at hx
        · simp [handleMessage, hu] at hx
    | playback a f t => simp [handleMessage] at hx
    | ping => simp [handleMessage] at hx

/-- C3 witness: with host H, open guests A and B, and an update message
arriving from A, the message is forwarded to B and not back to A. -/
theorem C3_witness :
    relayableMsg (Msg.update [1, 2]) = true
    ∧ ("B", Msg.update [1, 2])
        ∈ handleMessage true (fun d => d) [⟨"A", true⟩, ⟨"B", true⟩] ⟨"A", true⟩
            (Msg.update [1, 2]) :=
  ⟨rfl,
    (((C3_host_relay_fanout_amended (fun d => d) [⟨"A", true⟩, ⟨"B", true⟩] ⟨"A", true⟩
      (Msg.update [1, 2])).1 rfl).1 ⟨"B", true⟩ (by decide) rfl (by decide))⟩


/- Reconciliation bridge (source: initSyncBinding in index.ts and the
document update handler of the LinkSync constructor). -/

/-- A change of local origin produces no bridge call at all. -/
theorem observeCalls_of_not_sync (m : List (String × Ann)) (changes : List (String × ChangeAct))
    (origin : YOrigin) (h : origin ≠ YOrigin.fromSync) : observeCalls m changes origin = [] := by
  unfold observeCalls
  rw [List.flatten_eq_nil_iff]
  intro l hl
  obtain ⟨kc, _, hkc⟩ := List.mem_map.mp hl
  rw [← hkc]
  rcases kc with ⟨k, act⟩
  cases act with
  | addK =>
      unfold observeCallsFor
      cases yMapGet m k <;> simp [h]
  | updK =>
      unfold observeCallsFor
      cases yMapGet m k <;> simp [h]
  | delK =>
      unfold observeCallsFor
      simp [h]

/-- Every bridge call carries fromRemote true. -/
theorem observeCalls_isRemote (m : List (String × Ann)) (changes : List (String × ChangeAct))
    (origin : YOrigin) : ∀ c ∈ observeCalls m changes origin, c.isRemote = true := by
  intro c hc
  obtain ⟨l, hl, hcl⟩ := List.mem_flatten.mp hc
  obtain ⟨kc, _, hkc⟩ := List.mem_map.mp hl
  rw [← hkc] at hcl
  rcases kc with ⟨k, act⟩
  cases act with
  | addK =>
      unfold observeCallsFor at hcl
      cases hget : yMapGet m k <;> rw [hget] at hcl
      · simp at hcl
      · simp at hcl
        rw [hcl.2]
        rfl
  | updK =>
      unfold observeCallsFor at hcl
      cases hget : yMapGet m k <;> rw [hget] at hcl
      · simp at hcl
      · simp at hcl
        rw [hcl.2]
        rfl
  | delK =>
      unfold observeCallsFor at hcl
      simp at hcl
      rw [hcl.2]
      rfl

/-- C4.  No echo loop: the bridge applies observed map changes to the
Store, always with fromRemote true, exactly when the transaction origin is
the sync instance (for adds and updates provided the key is present in the
map, which a well-formed observe event guarantees); a change of local
origin is never re-applied to the Store, and a document update of sync
origin is never re-broadcast while one of local origin is broadcast to
every open connection. -/
theorem C4_no_echo_loop :
    ∀ (m : List (String × Ann)) (changes : List (String × ChangeAct)) (origin : YOrigin)
      (conns : List PeerConn) (data : List Nat),
      (origin ≠ YOrigin.fromSync → observeCalls m changes origin = [])
      ∧ (origin = YOrigin.fromSync → ∀ kc ∈ changes,
          (kc.2 = ChangeAct.addK → ∀ ann, yMapGet m kc.1 = some ann →
            StoreCall.addCall ann true ∈ observeCalls m changes origin)
          ∧ (kc.2 = ChangeAct.updK → ∀ ann, yMapGet m kc.1 = some ann →
            StoreCall.updCall kc.1 ann true ∈ observeCalls m changes origin)
          ∧ (kc.2 = ChangeAct.delK →
            StoreCall.delCall kc.1 true ∈ observeCalls m changes origin))
      ∧ (∀ c ∈ observeCalls m changes origin,
          c.isRemote = true ∧ origin = YOrigin.fromSync)
      ∧ (origin = YOrigin.fromSync → docUpdateSends origin conns data = [])
      ∧ (origin ≠ YOrigin.fromSync → ∀ c ∈ conns, c.isOpen = true →
          (c.peer, Msg.update data) ∈ docUpdateSends origin conns data) := by
  intro m changes origin conns data
  refine ⟨observeCalls_of_not_sync m changes origin, ?_, ?_, ?_, ?_⟩
  · intro h kc hkc
    have hmem : ∀ c ∈ observeCallsFor m origin kc, c ∈ observeCalls m changes origin := by
      intro c hc
      unfold observeCalls
      rw [List.mem_flatten]
      exact ⟨_, List.mem_map.mpr ⟨kc, hkc, rfl⟩, hc⟩
    refine ⟨?_, ?_, ?_⟩
    · intro hact ann hget
      refine hmem _ ?_
      unfold observeCallsFor
      rw [hact, hget]
      simp [h]
    · intro hact ann hget
      refine hmem _ ?_
      unfold observeCallsFor
      rw [hact, hget]
      simp [h]
    · intro hact
      refine hmem _ ?_
      unfold observeCallsFor
      rw [hact]
      simp [h]
  · intro c hc
    refine ⟨observeCalls_isRemote m changes origin c hc, ?_⟩
    by_contra h
    rw [observeCalls_of_not_sync m changes origin h] at hc
    simp at hc
  · intro h
    simp [docUpdateSends, h]
  · intro h c hc hopen
    unfold docUpdateSends
    rw [if_pos h]
    exact List.mem_map.mpr ⟨c, List.mem_filter.mpr ⟨hc, hopen⟩, rfl⟩

/-- C4 witness: one added key of sync origin is applied with fromRemote
true, and a local-origin document update reaches the open peer. -/
theorem C4_witness :
    (YOrigin.fromSync = YOrigin.fromSync)
    ∧ StoreCall.addCall annX true
        ∈ observeCalls [("a", annX)] [("a", ChangeAct.addK)] YOrigin.fromSync
    ∧ ("B", Msg.update [3])
        ∈ docUpdateSends YOrigin.localOther [⟨"B", true⟩] [3] :=
  ⟨rfl,
    (((C4_no_echo_loop [("a", annX)] [("a", ChangeAct.addK)] YOrigin.fromSync [] []).2.1 rfl
      ("a", ChangeAct.addK) (by decide)).1 rfl annX (by decide)),
    ((C4_no_echo_loop [("a", annX)] [] YOrigin.localOther [⟨"B", true⟩] [3]).2.2.2.2
      (by decide) ⟨"B", true⟩ (by decide) rfl)⟩


/- Reference-aware model of the annotation arrays (for the shared-array
behaviour of Store.ts).  JS object spread copies the reference to the
annotations array, not the array, so the constructor snapshot, the live
state and every getState result can share one array object.  The heap is a
list of arrays addressed by index; an AppState is reduced to the reference
it holds, the other fields being value-copied and irrelevant here. -/

/-- C7 refuted on the code.  At a fresh store, a caller takes the state
through getState; a remote add then walks the initial history snapshot,
pushing onto the snapshot array in place.  That array is the very array of
the live state and of the previously returned AppState, so the collection
the caller holds changes from empty to one annotation, and the subsequent
setState appends the annotation to the already-mutated live array, leaving
the live collection with the annotation twice. -/
theorem C7_copy_on_write_refuted :
    heapArr RStore.init.heap RStore.init.getState = []
    ∧ heapArr (RStore.init.addAnnRemote annX).heap RStore.init.getState = [annX]
    ∧ heapArr (RStore.init.addAnnRemote annX).heap (RStore.init.addAnnRemote annX).rstate
        = [annX, annX]
    ∧ (RStore.init.captureSnap.addAnnRemote annX).heap
        = ((RStore.captureSnap RStore.init).addAnnRemote annX).heap := by
  exact ⟨rfl, by decide, by decide, rfl⟩


/- Trace machinery for the reconciliation claims. -/

/-- Projections of withAnns. -/
theorem withAnns_state_anns (s : Store) (l : List Ann) : (s.withAnns l).state.anns = l := rfl

/-- Collapsing two collection replacements. -/
theorem withAnns_withAnns (s : Store) (l l2 : List Ann) :
    (s.withAnns l).withAnns l2 = s.withAnns l2 := rfl

/-- Replacing the collection by itself is the identity. -/
theorem withAnns_self (s : Store) : s.withAnns s.state.anns = s := rfl

/-- Membership characterization of hasId. -/
theorem hasId_eq_true_iff (l : List Ann) (id : String) :
    hasId l id = true ↔ ∃ a ∈ l, a.id = id := by
  simp [hasId]

/-- An element witnesses its own id. -/
theorem hasId_of_mem {l : List Ann} {a : Ann} (h : a ∈ l) : hasId l a.id = true :=
  (hasId_eq_true_iff l a.id).mpr ⟨a, h, rfl⟩

/-- Unfolding hasId over a cons cell. -/
theorem hasId_cons (b : Ann) (l : List Ann) (id : String) :
    hasId (b :: l) id = ((b.id == id) || hasId l id) := by
  simp [hasId]

/-- String equality tests are symmetric. -/
theorem beq_comm_str (x y : String) : (x == y) = (y == x) := by
  by_cases h : x = y
  · rw [h]
  · rw [beq_eq_false_iff_ne.mpr h, beq_eq_false_iff_ne.mpr (Ne.symm h)]

/-- The whole store after a local delete. -/
theorem deleteAnn_false_fst (s : Store) (id : String) :
    (s.deleteAnn id false).1 = s.withAnns (s.state.anns.filter (fun a => a.id != id)) :=
  rfl

/-- The events of a local delete. -/
theorem deleteAnn_false_snd (s : Store) (id : String) :
    (s.deleteAnn id false).2
      = [Event.stateChanged (s.withAnns (s.state.anns.filter (fun a => a.id != id))).state
          s.state,
         Event.deleted id false] :=
  rfl

/-- The whole store after a local add. -/
theorem addAnn_false_fst (s : Store) (a : Ann) :
    (s.addAnn a false).1 = s.withAnns (s.state.anns ++ [a]) :=
  rfl

/-- The events of a local add. -/
theorem addAnn_false_snd (s : Store) (a : Ann) :
    (s.addAnn a false).2
      = [Event.stateChanged (s.withAnns (s.state.anns ++ [a])).state s.state,
         Event.added a false] :=
  rfl

/-- The whole store after a local update. -/
theorem updateAnn_false_fst (s : Store) (id : String) (p : AnnPatch) :
    (s.updateAnn id p false).1
      = s.withAnns (s.state.anns.map (fun a => if a.id == id then applyAnnPatch a p else a)) :=
  rfl

/-- The events of a local update. -/
theorem updateAnn_false_snd (s : Store) (id : String) (p : AnnPatch) :
    (s.updateAnn id p false).2
      = [Event.stateChanged
          (s.withAnns (s.state.anns.map
            (fun a => if a.id == id then applyAnnPatch a p else a))).state s.state,
         Event.updated id p false] :=
  rfl

/-- Closed form of the deletions phase on the store: every annotation of
the live collection whose id is listed by the processed elements but
missing from the target is removed; nothing else changes. -/
theorem reconcileDeletes_fst (tg : List Ann) :
    ∀ (ts : List Ann) (s : Store),
      (Store.reconcileDeletes tg ts s).1
        = s.withAnns (s.state.anns.filter (fun a => hasId tg a.id || !hasId ts a.id)) := by
  intro ts
  induction ts with
  | nil =>
      intro s
      have he : s.state.anns.filter (fun a => hasId tg a.id || !hasId ([] : List Ann) a.id)
          = s.state.anns :=
        List.filter_eq_self.mpr (by intro a _; simp [hasId])
      show s = _
      rw [he, withAnns_self]
  | cons a ts ih =>
      intro s
      by_cases h : hasId tg a.id = true
      · have hstep : Store.reconcileDeletes tg (a :: ts) s = Store.reconcileDeletes tg ts s := by
          simp only [Store.reconcileDeletes]
          rw [if_pos h]
        rw [hstep, ih s]
        have he : s.state.anns.filter (fun x => hasId tg x.id || !hasId ts x.id)
            = s.state.anns.filter (fun x => hasId tg x.id || !hasId (a :: ts) x.id) := by
          refine List.filter_congr ?_
          intro x _
          rw [hasId_cons]
          by_cases hx : a.id = x.id
          · have hxt : hasId tg x.id = true := hx ▸ h
            simp [hxt]
          · rw [beq_eq_false_iff_ne.mpr hx]
            simp
        rw [he]
      · have hb : hasId tg a.id = false := by
          cases hv : hasId tg a.id
          · rfl
          · exact absurd hv h
        have hstep : Store.reconcileDeletes tg (a :: ts) s
            = ((Store.reconcileDeletes tg ts (s.deleteAnn a.id false).1).1,
               (s.deleteAnn a.id false).2
                 ++ (Store.reconcileDeletes tg ts (s.deleteAnn a.id false).1).2) := by
          simp only [Store.reconcileDeletes]
          rw [if_neg h]
        rw [hstep]
        show (Store.reconcileDeletes tg ts (s.deleteAnn a.id false).1).1 = _
        rw [deleteAnn_false_fst, ih, withAnns_state_anns, withAnns_withAnns]
        have he : (s.state.anns.filter (fun x => x.id != a.id)).filter
              (fun x => hasId tg x.id || !hasId ts x.id)
            = s.state.anns.filter (fun x => hasId tg x.id || !hasId (a :: ts) x.id) := by
          rw [List.filter_filter]
          refine List.filter_congr ?_
          intro x _
          rw [hasId_cons]
          by_cases hx : a.id = x.id
          · have hxt : hasId tg x.id = false := hx ▸ hb
            simp [bne, hx, hxt]
          · simp [bne, beq_eq_false_iff_ne.mpr hx, beq_eq_false_iff_ne.mpr (Ne.symm hx)]
        rw [he]

/-- The annotation events of the deletions phase: one deleted event per
processed annotation whose id is missing from the target. -/
theorem reconcileDeletes_annEvents (tg : List Ann) :
    ∀ (ts : List Ann) (s : Store),
      annEvents (Store.reconcileDeletes tg ts s).2
        = (ts.filter (fun a => !hasId tg a.id)).map (fun a => Event.deleted a.id false) := by
  intro ts
  induction ts with
  | nil => intro s; rfl
  | cons a ts ih =>
      intro s
      by_cases h : hasId tg a.id = true
      · have hstep : Store.reconcileDeletes tg (a :: ts) s = Store.reconcileDeletes tg ts s := by
          simp only [Store.reconcileDeletes]
          rw [if_pos h]
        rw [hstep, ih s, List.filter_cons]
        simp [h]
      · have hstep : Store.reconcileDeletes tg (a :: ts) s
            = ((Store.reconcileDeletes tg ts (s.deleteAnn a.id false).1).1,
               (s.deleteAnn a.id false).2
                 ++ (Store.reconcileDeletes tg ts (s.deleteAnn a.id false).1).2) := by
          simp only [Store.reconcileDeletes]
          rw [if_neg h]
        have hb : hasId tg a.id = false := by
          cases hv : hasId tg a.id
          · rfl
          · exact absurd hv h
        rw [hstep]
        show annEvents ((s.deleteAnn a.id false).2 ++ _) = _
        unfold annEvents
        rw [List.filter_append]
        show annEvents (s.deleteAnn a.id false).2 ++ annEvents _ = _
        rw [ih, List.filter_cons]
        simp only [hb, Bool.not_false, if_pos]
        rfl

/-- The stateChanged events of the deletions phase are in bijection with
its deleted events: one setState per delete. -/
theorem reconcileDeletes_scEvents_length (tg : List Ann) :
    ∀ (ts : List Ann) (s : Store),
      (scEvents (Store.reconcileDeletes tg ts s).2).length
        = (annEvents (Store.reconcileDeletes tg ts s).2).length := by
  intro ts
  induction ts with
  | nil => intro s; rfl
  | cons a ts ih =>
      intro s
      by_cases h : hasId tg a.id = true
      · have hstep : Store.reconcileDeletes tg (a :: ts) s = Store.reconcileDeletes tg ts s := by
          simp only [Store.reconcileDeletes]
          rw [if_pos h]
        rw [hstep, ih s]
      · have hstep : Store.reconcileDeletes tg (a :: ts) s
            = ((Store.reconcileDeletes tg ts (s.deleteAnn a.id false).1).1,
               (s.deleteAnn a.id false).2
                 ++ (Store.reconcileDeletes tg ts (s.deleteAnn a.id false).1).2) := by
          simp only [Store.reconcileDeletes]
          rw [if_neg h]
        rw [hstep]
        show (scEvents ((s.deleteAnn a.id false).2 ++ _)).length
            = (annEvents ((s.deleteAnn a.id false).2 ++ _)).length
        unfold scEvents annEvents
        rw [List.filter_append, List.filter_append, List.length_append, List.length_append]
        have := ih (s.deleteAnn a.id false).1
        unfold scEvents annEvents at this
        rw [this]
        rfl

/-- First-match lookup on a list with distinct ids finds each member. -/
theorem findAnn_nodup {l : List Ann} {a : Ann} (hnd : (annIds l).Nodup) (h : a ∈ l) :
    findAnn l a.id = some a := by
  induction l with
  | nil => cases h
  | cons b l ih =>
      have hb : b.id ∉ annIds l := (List.nodup_cons.mp hnd).1
      have hndl : (annIds l).Nodup := (List.nodup_cons.mp hnd).2
      rcases List.mem_cons.mp h with rfl | hmem
      · unfold findAnn
        rw [List.find?_cons_of_pos]
        exact beq_self_eq_true _
      · unfold findAnn
        rw [List.find?_cons_of_neg]
        · exact ih hndl hmem
        · intro hpred
          exact hb (beq_iff_eq.mp hpred ▸ List.mem_map_of_mem (fun x => x.id) hmem)

/-- A successful first-match lookup returns a member with the id. -/
theorem findAnn_some {l : List Ann} {id : String} {c : Ann} (h : findAnn l id = some c) :
    c ∈ l ∧ c.id = id := by
  unfold findAnn at h
  have h2 := List.find?_some h
  simp only [beq_iff_eq] at h2
  exact ⟨List.mem_of_find?_eq_some h, h2⟩

/-- A successful map lookup returns a member with the id. -/
theorem mapGetAnn_some {l : List Ann} {id : String} {c : Ann} (h : mapGetAnn l id = some c) :
    c ∈ l ∧ c.id = id := by
  have := findAnn_some (l := l.reverse) h
  exact ⟨List.mem_reverse.mp this.1, this.2⟩

/-- Map lookup on a list with distinct ids finds each member. -/
theorem mapGetAnn_nodup {l : List Ann} {a : Ann} (hnd : (annIds l).Nodup) (h : a ∈ l) :
    mapGetAnn l a.id = some a := by
  have hnd2 : (annIds l.reverse).Nodup := by
    unfold annIds
    rw [List.map_reverse]
    exact List.nodup_reverse.mpr hnd
  exact findAnn_nodup hnd2 (List.mem_reverse.mpr h)

/-- On a list with distinct ids, the last-wins map lookup and the
first-match lookup agree. -/
theorem mapGetAnn_eq_findAnn {l : List Ann} (hnd : (annIds l).Nodup) (id : String) :
    mapGetAnn l id = findAnn l id := by
  cases hf : findAnn l id with
  | none =>
      have hno : ∀ a ∈ l, ¬((a.id == id) = true) := by
        have := List.find?_eq_none.mp hf
        exact this
      cases hg : mapGetAnn l id with
      | none => rfl
      | some c =>
          obtain ⟨hc, hcid⟩ := mapGetAnn_some hg
          exact absurd (beq_iff_eq.mpr hcid) (hno c hc)
  | some c =>
      obtain ⟨hc, hcid⟩ := findAnn_some hf
      rw [← hcid]
      exact mapGetAnn_nodup hnd hc

/-- The annotation events of the additions and updates phase: per target
annotation, an added event when its id is absent from the original current
map, an updated event when present with different fields, nothing when
identical. -/
theorem reconcileUpserts_annEvents (origC : List Ann) :
    ∀ (ts : List Ann) (s : Store),
      annEvents (Store.reconcileUpserts origC ts s).2
        = ts.filterMap (fun t =>
            match mapGetAnn origC t.id with
            | none => some (Event.added t false)
            | some c => if c = t then none else some (Event.updated t.id t.toPatch false)) := by
  intro ts
  induction ts with
  | nil => intro s; rfl
  | cons t ts ih =>
      intro s
      cases hget : mapGetAnn origC t.id with
      | none =>
          have hstep : Store.reconcileUpserts origC (t :: ts) s
              = ((Store.reconcileUpserts origC ts (s.addAnn t false).1).1,
                 (s.addAnn t false).2
                   ++ (Store.reconcileUpserts origC ts (s.addAnn t false).1).2) := by
            simp only [Store.reconcileUpserts, hget]
          rw [hstep]
          show annEvents ((s.addAnn t false).2 ++ _) = _
          unfold annEvents
          rw [List.filter_append]
          show annEvents (s.addAnn t false).2 ++ annEvents _ = _
          rw [ih, List.filterMap_cons, hget]
          rfl
      | some c =>
          by_cases he : c = t
          · have hstep : Store.reconcileUpserts origC (t :: ts) s
                = Store.reconcileUpserts origC ts s := by
              simp only [Store.reconcileUpserts, hget]
              rw [if_neg (not_not_intro he)]
            rw [hstep, ih s]
            simp [List.filterMap_cons, hget, he]
          · have hstep : Store.reconcileUpserts origC (t :: ts) s
                = ((Store.reconcileUpserts origC ts (s.updateAnn t.id t.toPatch false).1).1,
                   (s.updateAnn t.id t.toPatch false).2
                     ++ (Store.reconcileUpserts origC ts
                          (s.updateAnn t.id t.toPatch false).1).2) := by
              simp only [Store.reconcileUpserts, hget]
              rw [if_pos he]
            rw [hstep]
            show annEvents ((s.updateAnn t.id t.toPatch false).2 ++ _) = _
            unfold annEvents
            rw [List.filter_append]
            show annEvents (s.updateAnn t.id t.toPatch false).2 ++ annEvents _ = _
            rw [ih]
            simp only [List.filterMap_cons, hget, if_neg he]
            rfl

/-- One setState per add or update in the additions and updates phase. -/
theorem reconcileUpserts_scEvents_length (origC : List Ann) :
    ∀ (ts : List Ann) (s : Store),
      (scEvents (Store.reconcileUpserts origC ts s).2).length
        = (annEvents (Store.reconcileUpserts origC ts s).2).length := by
  intro ts
  induction ts with
  | nil => intro s; rfl
  | cons t ts ih =>
      intro s
      cases hget : mapGetAnn origC t.id with
      | none =>
          have hstep : Store.reconcileUpserts origC (t :: ts) s
              = ((Store.reconcileUpserts origC ts (s.addAnn t false).1).1,
                 (s.addAnn t false).2
                   ++ (Store.reconcileUpserts origC ts (s.addAnn t false).1).2) := by
            simp only [Store.reconcileUpserts, hget]
          rw [hstep]
          show (scEvents ((s.addAnn t false).2 ++ _)).length
              = (annEvents ((s.addAnn t false).2 ++ _)).length
          unfold scEvents annEvents
          rw [List.filter_append, List.filter_append, List.length_append, List.length_append]
          have := ih (s.addAnn t false).1
          unfold scEvents annEvents at this
          rw [this]
          rfl
      | some c =>
          by_cases he : c = t
          · have hstep : Store.reconcileUpserts origC (t :: ts) s
                = Store.reconcileUpserts origC ts s := by
              simp only [Store.reconcileUpserts, hget]
              rw [if_neg (not_not_intro he)]
            rw [hstep, ih s]
          · have hstep : Store.reconcileUpserts origC (t :: ts) s
                = ((Store.reconcileUpserts origC ts (s.updateAnn t.id t.toPatch false).1).1,
                   (s.updateAnn t.id t.toPatch false).2
                     ++ (Store.reconcileUpserts origC ts
                          (s.updateAnn t.id t.toPatch false).1).2) := by
              simp only [Store.reconcileUpserts, hget]
              rw [if_pos he]
            rw [hstep]
            show (scEvents ((s.updateAnn t.id t.toPatch false).2 ++ _)).length
                = (annEvents ((s.updateAnn t.id t.toPatch false).2 ++ _)).length
            unfold scEvents annEvents
            rw [List.filter_append, List.filter_append, List.length_append, List.length_append]
            have := ih (s.updateAnn t.id t.toPatch false).1
            unfold scEvents annEvents at this
            rw [this]
            rfl

/-- Membership after the additions and updates phase: every target
annotation ends up in the live collection, and live annotations whose ids
the target does not mention survive.  The two map hypotheses say that the
live collection holds, for each target id, exactly the value the original
current map reports, which the deletions phase established. -/
theorem reconcileUpserts_mem (origC : List Ann) :
    ∀ (ts : List Ann) (s : Store),
      (annIds ts).Nodup →
      (∀ t ∈ ts, ∀ x ∈ s.state.anns, x.id = t.id → mapGetAnn origC t.id = some x) →
      (∀ t ∈ ts, (mapGetAnn origC t.id).isSome = true → ∃ x ∈ s.state.anns, x.id = t.id) →
      (∀ t ∈ ts, t ∈ (Store.reconcileUpserts origC ts s).1.state.anns)
        ∧ (∀ x ∈ s.state.anns, (∀ t ∈ ts, x.id ≠ t.id)
            → x ∈ (Store.reconcileUpserts origC ts s).1.state.anns) := by
  intro ts
  induction ts with
  | nil =>
      intro s _ _ _
      exact ⟨fun t ht => absurd ht (List.not_mem_nil t), fun x hx _ => hx⟩
  | cons t ts ih =>
      intro s hnd H1 H2
      have hcons : annIds (t :: ts) = t.id :: annIds ts := rfl
      obtain ⟨htid, hndts⟩ := List.nodup_cons.mp (hcons ▸ hnd)
      cases hget : mapGetAnn origC t.id with
      | none =>
          have hstep : (Store.reconcileUpserts origC (t :: ts) s).1
              = (Store.reconcileUpserts origC ts (s.addAnn t false).1).1 := by
            simp only [Store.reconcileUpserts, hget]
          have hanns : (s.addAnn t false).1.state.anns = s.state.anns ++ [t] := rfl
          have H1' : ∀ u ∈ ts, ∀ x ∈ (s.addAnn t false).1.state.anns, x.id = u.id →
              mapGetAnn origC u.id = some x := by
            intro u hu x hx hxi
            rw [hanns] at hx
            rcases List.mem_append.mp hx with hx1 | hx2
            · exact H1 u (List.mem_cons_of_mem t hu) x hx1 hxi
            · have hxt : x = t := by simpa using hx2
              subst hxt
              exact absurd (hxi ▸ List.mem_map_of_mem (fun a => a.id) hu) htid
          have H2' : ∀ u ∈ ts, (mapGetAnn origC u.id).isSome = true →
              ∃ x ∈ (s.addAnn t false).1.state.anns, x.id = u.id := by
            intro u hu hsome
            obtain ⟨x, hx, hxi⟩ := H2 u (List.mem_cons_of_mem t hu) hsome
            exact ⟨x, by rw [hanns]; exact List.mem_append_left _ hx, hxi⟩
          obtain ⟨ihA, ihB⟩ := ih (s.addAnn t false).1 hndts H1' H2'
          constructor
          · intro u hu
            rw [hstep]
            rcases List.mem_cons.mp hu with rfl | hu2
            · refine ihB u ?_ ?_
              · rw [hanns]
                exact List.mem_append_right _ (List.mem_singleton.mpr rfl)
              · intro v hv hEq
                exact htid (hEq ▸ List.mem_map_of_mem (fun a => a.id) hv)
            · exact ihA u hu2
          · intro x hx hne
            rw [hstep]
            refine ihB x ?_ ?_
            · rw [hanns]
              exact List.mem_append_left _ hx
            · intro v hv
              exact hne v (List.mem_cons_of_mem t hv)
      | some c =>
          by_cases he : c = t
          · have hstep : (Store.reconcileUpserts origC (t :: ts) s).1
                = (Store.reconcileUpserts origC ts s).1 := by
              simp only [Store.reconcileUpserts, hget]
              rw [if_neg (not_not_intro he)]
            have H1' : ∀ u ∈ ts, ∀ x ∈ s.state.anns, x.id = u.id →
                mapGetAnn origC u.id = some x :=
              fun u hu => H1 u (List.mem_cons_of_mem t hu)
            have H2' : ∀ u ∈ ts, (mapGetAnn origC u.id).isSome = true →
                ∃ x ∈ s.state.anns, x.id = u.id :=
              fun u hu => H2 u (List.mem_cons_of_mem t hu)
            obtain ⟨ihA, ihB⟩ := ih s hndts H1' H2'
            constructor
            · intro u hu
              rw [hstep]
              rcases List.mem_cons.mp hu with rfl | hu2
              · have hsome : (mapGetAnn origC u.id).isSome = true := by rw [hget]; rfl
                obtain ⟨x, hx, hxi⟩ := H2 u (List.mem_cons_self u ts) hsome
                have hcx : some c = some x := (hget.symm.trans
                  (H1 u (List.mem_cons_self u ts) x hx hxi))
                have hxu : x = u := by
                  rw [← Option.some_inj.mp hcx, he]
                exact ihB u (hxu ▸ hx)
                  (fun v hv hEq => htid (hEq ▸ List.mem_map_of_mem (fun a => a.id) hv))
              · exact ihA u hu2
            · intro x hx hne
              rw [hstep]
              exact ihB x hx (fun v hv => hne v (List.mem_cons_of_mem t hv))
          · have hstep : (Store.reconcileUpserts origC (t :: ts) s).1
                = (Store.reconcileUpserts origC ts (s.updateAnn t.id t.toPatch false).1).1 := by
              simp only [Store.reconcileUpserts, hget]
              rw [if_pos he]
            have hanns : (s.updateAnn t.id t.toPatch false).1.state.anns
                = s.state.anns.map
                    (fun a => if a.id == t.id then applyAnnPatch a t.toPatch else a) := rfl
            have hanns2 : (s.updateAnn t.id t.toPatch false).1.state.anns
                = s.state.anns.map (fun a => if a.id == t.id then t else a) := by
              rw [hanns]
              refine List.map_congr_left ?_
              intro a _
              by_cases hb : (a.id == t.id) = true
              · rw [if_pos hb, if_pos hb, applyAnnPatch_toPatch]
              · rw [if_neg hb, if_neg hb]
          
            have H1' : ∀ u ∈ ts, ∀ x ∈ (s.updateAnn t.id t.toPatch false).1.state.anns,
                x.id = u.id → mapGetAnn origC u.id = some x := by
              intro u hu x hx hxi
              rw [hanns2] at hx
              obtain ⟨y, hy, hyx⟩ := List.mem_map.mp hx
              by_cases hb : (y.id == t.id) = true
              · rw [if_pos hb] at hyx
                subst hyx
                exact absurd (hxi ▸ List.mem_map_of_mem (fun a => a.id) hu) htid
              · rw [if_neg hb] at hyx
                subst hyx
                exact H1 u (List.mem_cons_of_mem t hu) y hy hxi
            have H2' : ∀ u ∈ ts, (mapGetAnn origC u.id).isSome = true →
                ∃ x ∈ (s.updateAnn t.id t.toPatch false).1.state.anns, x.id = u.id := by
              intro u hu hsome
              obtain ⟨y, hy, hyi⟩ := H2 u (List.mem_cons_of_mem t hu) hsome
              have hb : (y.id == t.id) = false := by
                refine beq_eq_false_iff_ne.mpr ?_
                rw [hyi]
                intro hEq
                exact htid (hEq ▸ List.mem_map_of_mem (fun a => a.id) hu)
              refine ⟨y, ?_, hyi⟩
              rw [hanns2]
              have hmm := List.mem_map_of_mem (fun a => if a.id == t.id then t else a) hy
              simp only [hb] at hmm
              exact hmm
            obtain ⟨ihA, ihB⟩ := ih (s.updateAnn t.id t.toPatch false).1 hndts H1' H2'
            constructor
            · intro u hu
              rw [hstep]
              rcases List.mem_cons.mp hu with rfl | hu2
              · have hsome : (mapGetAnn origC u.id).isSome = true := by rw [hget]; rfl
                obtain ⟨y, hy, hyi⟩ := H2 u (List.mem_cons_self u ts) hsome
                have hb : (y.id == u.id) = true := beq_iff_eq.mpr hyi
                have hmem : u ∈ (s.updateAnn u.id u.toPatch false).1.state.anns := by
                  rw [hanns2]
                  have hmm := List.mem_map_of_mem (fun a => if a.id == u.id then u else a) hy
                  simp only [hb, if_pos] at hmm
                  exact hmm
                exact ihB u hmem
                  (fun v hv hEq => htid (hEq ▸ List.mem_map_of_mem (fun a => a.id) hv))
              · exact ihA u hu2
            · intro x hx hne
              rw [hstep]
              have hb : (x.id == t.id) = false :=
                beq_eq_false_iff_ne.mpr (hne t (List.mem_cons_self t ts))
              have hmem : x ∈ (s.updateAnn t.id t.toPatch false).1.state.anns := by
                rw [hanns2]
                have hmm := List.mem_map_of_mem (fun a => if a.id == t.id then t else a) hx
                simp only [hb] at hmm
                exact hmm
              exact ihB x hmem (fun v hv => hne v (List.mem_cons_of_mem t hv))

/-- The state is unaffected by the guard flag. -/
theorem withUndoFlag_state (s : Store) (b : Bool) : (s.withUndoFlag b).state = s.state := rfl

/-- Unfolding undo on a stack with at least two snapshots. -/
theorem undo_of_cons (s : Store) (top prev : AppState) (rest : List AppState)
    (h : s.historyStack = top :: prev :: rest) :
    s.undo = (((undoStaged s top prev rest).applyStateReconciliation prev).1.withUndoFlag false,
              ((undoStaged s top prev rest).applyStateReconciliation prev).2) := by
  unfold Store.undo
  rw [h]
  rw [if_neg (by simp)]
  rfl

/-- Unfolding redo on a non-empty redo stack. -/
theorem redo_of_cons (s : Store) (next : AppState) (rest : List AppState)
    (h : s.redoStack = next :: rest) :
    s.redo = (((redoStaged s next rest).applyStateReconciliation next).1.withUndoFlag false,
              ((redoStaged s next rest).applyStateReconciliation next).2) := by
  unfold Store.redo
  rw [h]
  rfl

/-- The state of a store with its collection replaced. -/
theorem withAnns_state_eq (s : Store) (l : List Ann) :
    (s.withAnns l).state = { s.state with anns := l } := rfl

/-- The deletions phase is driven by the state alone: stores with equal
states produce equal events and equal resulting states. -/
theorem reconcileDeletes_congr (tg : List Ann) :
    ∀ (ts : List Ann) (s s2 : Store), s.state = s2.state →
      (Store.reconcileDeletes tg ts s).2 = (Store.reconcileDeletes tg ts s2).2
        ∧ (Store.reconcileDeletes tg ts s).1.state
            = (Store.reconcileDeletes tg ts s2).1.state := by
  intro ts
  induction ts with
  | nil => intro s s2 h; exact ⟨rfl, h⟩
  | cons a ts ih =>
      intro s s2 h
      by_cases hc : hasId tg a.id = true
      · have e1 : Store.reconcileDeletes tg (a :: ts) s = Store.reconcileDeletes tg ts s := by
          simp only [Store.reconcileDeletes]
          rw [if_pos hc]
        have e2 : Store.reconcileDeletes tg (a :: ts) s2 = Store.reconcileDeletes tg ts s2 := by
          simp only [Store.reconcileDeletes]
          rw [if_pos hc]
        rw [e1, e2]
        exact ih s s2 h
      · have e1 : Store.reconcileDeletes tg (a :: ts) s
            = ((Store.reconcileDeletes tg ts (s.deleteAnn a.id false).1).1,
               (s.deleteAnn a.id false).2
                 ++ (Store.reconcileDeletes tg ts (s.deleteAnn a.id false).1).2) := by
          simp only [Store.reconcileDeletes]
          rw [if_neg hc]
        have e2 : Store.reconcileDeletes tg (a :: ts) s2
            = ((Store.reconcileDeletes tg ts (s2.deleteAnn a.id false).1).1,
               (s2.deleteAnn a.id false).2
                 ++ (Store.reconcileDeletes tg ts (s2.deleteAnn a.id false).1).2) := by
          simp only [Store.reconcileDeletes]
          rw [if_neg hc]
        rw [e1, e2]
        have hdel : (s.deleteAnn a.id false).1.state = (s2.deleteAnn a.id false).1.state := by
          rw [deleteAnn_false_fst, deleteAnn_false_fst, withAnns_state_eq, withAnns_state_eq, h]
        have hdev : (s.deleteAnn a.id false).2 = (s2.deleteAnn a.id false).2 := by
          rw [deleteAnn_false_snd, deleteAnn_false_snd, withAnns_state_eq, withAnns_state_eq, h]
        obtain ⟨hev, hst⟩ := ih (s.deleteAnn a.id false).1 (s2.deleteAnn a.id false).1 hdel
        exact ⟨by rw [hdev, hev], hst⟩

/-- The additions and updates phase is driven by the state alone. -/
theorem reconcileUpserts_congr (origC : List Ann) :
    ∀ (ts : List Ann) (s s2 : Store), s.state = s2.state →
      (Store.reconcileUpserts origC ts s).2 = (Store.reconcileUpserts origC ts s2).2
        ∧ (Store.reconcileUpserts origC ts s).1.state
            = (Store.reconcileUpserts origC ts s2).1.state := by
  intro ts
  induction ts with
  | nil => intro s s2 h; exact ⟨rfl, h⟩
  | cons t ts ih =>
      intro s s2 h
      cases hget : mapGetAnn origC t.id with
      | none =>
          have e1 : Store.reconcileUpserts origC (t :: ts) s
              = ((Store.reconcileUpserts origC ts (s.addAnn t false).1).1,
                 (s.addAnn t false).2
                   ++ (Store.reconcileUpserts origC ts (s.addAnn t false).1).2) := by
            simp only [Store.reconcileUpserts, hget]
          have e2 : Store.reconcileUpserts origC (t :: ts) s2
              = ((Store.reconcileUpserts origC ts (s2.addAnn t false).1).1,
                 (s2.addAnn t false).2
                   ++ (Store.reconcileUpserts origC ts (s2.addAnn t false).1).2) := by
            simp only [Store.reconcileUpserts, hget]
          rw [e1, e2]
          have hst0 : (s.addAnn t false).1.state = (s2.addAnn t false).1.state := by
            rw [addAnn_false_fst, addAnn_false_fst, withAnns_state_eq, withAnns_state_eq, h]
          have hev0 : (s.addAnn t false).2 = (s2.addAnn t false).2 := by
            rw [addAnn_false_snd, addAnn_false_snd, withAnns_state_eq, withAnns_state_eq, h]
          obtain ⟨hev, hst⟩ := ih (s.addAnn t false).1 (s2.addAnn t false).1 hst0
          exact ⟨by rw [hev0, hev], hst⟩
      | some c =>
          by_cases he : c = t
          · have e1 : Store.reconcileUpserts origC (t :: ts) s
                = Store.reconcileUpserts origC ts s := by
              simp only [Store.reconcileUpserts, hget]
              rw [if_neg (not_not_intro he)]
            have e2 : Store.reconcileUpserts origC (t :: ts) s2
                = Store.reconcileUpserts origC ts s2 := by
              simp only [Store.reconcileUpserts, hget]
              rw [if_neg (not_not_intro he)]
            rw [e1, e2]
            exact ih s s2 h
          · have e1 : Store.reconcileUpserts origC (t :: ts) s
                = ((Store.reconcileUpserts origC ts (s.updateAnn t.id t.toPatch false).1).1,
                   (s.updateAnn t.id t.toPatch false).2
                     ++ (Store.reconcileUpserts origC ts
                          (s.updateAnn t.id t.toPatch false).1).2) := by
              simp only [Store.reconcileUpserts, hget]
              rw [if_pos he]
            have e2 : Store.reconcileUpserts origC (t :: ts) s2
                = ((Store.reconcileUpserts origC ts (s2.updateAnn t.id t.toPatch false).1).1,
                   (s2.updateAnn t.id t.toPatch false).2
                     ++ (Store.reconcileUpserts origC ts
                          (s2.updateAnn t.id t.toPatch false).1).2) := by
              simp only [Store.reconcileUpserts, hget]
              rw [if_pos he]
            rw [e1, e2]
            have hst0 : (s.updateAnn t.id t.toPatch false).1.state
                = (s2.updateAnn t.id t.toPatch false).1.state := by
              rw [updateAnn_false_fst, updateAnn_false_fst, withAnns_state_eq,
                withAnns_state_eq, h]
            have hev0 : (s.updateAnn t.id t.toPatch false).2
                = (s2.updateAnn t.id t.toPatch false).2 := by
              rw [updateAnn_false_snd, updateAnn_false_snd, withAnns_state_eq,
                withAnns_state_eq, h]
            obtain ⟨hev, hst⟩ := ih (s.updateAnn t.id t.toPatch false).1
              (s2.updateAnn t.id t.toPatch false).1 hst0
            exact ⟨by rw [hev0, hev], hst⟩

/-- Reconciliation is driven by the state alone; the stacks and the guard
flag influence neither the emitted events nor the resulting state. -/
theorem applyStateReconciliation_congr (s s2 : Store) (T : AppState) (h : s.state = s2.state) :
    (s.applyStateReconciliation T).2 = (s2.applyStateReconciliation T).2 := by
  unfold Store.applyStateReconciliation
  rw [h]
  obtain ⟨hdev, hdst⟩ := reconcileDeletes_congr T.anns s2.state.anns s s2 h
  obtain ⟨huev, hust⟩ := reconcileUpserts_congr s2.state.anns T.anns
    (Store.reconcileDeletes T.anns s2.state.anns s).1
    (Store.reconcileDeletes T.anns s2.state.anns s2).1 hdst
  have hsc : ((Store.reconcileUpserts s2.state.anns T.anns
        (Store.reconcileDeletes T.anns s2.state.anns s).1).1.setState (restPatch T)).2
      = ((Store.reconcileUpserts s2.state.anns T.anns
        (Store.reconcileDeletes T.anns s2.state.anns s2).1).1.setState (restPatch T)).2 := by
    unfold Store.setState
    rw [hust]
  show (Store.reconcileDeletes T.anns s2.state.anns s).2
      ++ (Store.reconcileUpserts s2.state.anns T.anns
            (Store.reconcileDeletes T.anns s2.state.anns s).1).2
      ++ ((Store.reconcileUpserts s2.state.anns T.anns
            (Store.reconcileDeletes T.anns s2.state.anns s).1).1.setState (restPatch T)).2
    = (Store.reconcileDeletes T.anns s2.state.anns s2).2
      ++ (Store.reconcileUpserts s2.state.anns T.anns
            (Store.reconcileDeletes T.anns s2.state.anns s2).1).2
      ++ ((Store.reconcileUpserts s2.state.anns T.anns
            (Store.reconcileDeletes T.anns s2.state.anns s2).1).1.setState (restPatch T)).2
  rw [hdev, huev, hsc]

/-- Congruence for filterMap. -/
theorem filterMapCongr {α β : Type} (l : List α) (f g : α → Option β)
    (h : ∀ a ∈ l, f a = g a) : l.filterMap f = l.filterMap g := by
  induction l with
  | nil => rfl
  | cons a l ih =>
      rw [List.filterMap_cons, List.filterMap_cons, h a (List.mem_cons_self a l),
        ih (fun x hx => h x (List.mem_cons_of_mem a hx))]

/-- The filter of annotation events distributes over appended traces. -/
theorem annEvents_append (x y : List Event) : annEvents (x ++ y) = annEvents x ++ annEvents y :=
  List.filter_append x y

/-- The filter of stateChanged events distributes over appended traces. -/
theorem scEvents_append (x y : List Event) : scEvents (x ++ y) = scEvents x ++ scEvents y :=
  List.filter_append x y

/-- The reconciliation trace decomposes into the two phases and the final
setState. -/
theorem applyStateReconciliation_snd (s : Store) (T : AppState) :
    (s.applyStateReconciliation T).2
      = (Store.reconcileDeletes T.anns s.state.anns s).2
        ++ (Store.reconcileUpserts s.state.anns T.anns
              (Store.reconcileDeletes T.anns s.state.anns s).1).2
        ++ ((Store.reconcileUpserts s.state.anns T.anns
              (Store.reconcileDeletes T.anns s.state.anns s).1).1.setState (restPatch T)).2 :=
  rfl

/-- C2.  Diff-based restore: restoring a target snapshot T against the
current state C performs, through the event-emitting Store methods,
exactly one delete per current annotation whose id is absent from T, then
per target annotation an add when absent from C or an update when present
with different fields, plus one setState per such operation and one final
setState whose resulting state carries all non-annotation fields of T;
undo and redo emit exactly this reconciliation trace. -/
theorem C2_diff_based_restore :
    ∀ (s : Store) (T : AppState),
      (annIds s.state.anns).Nodup →
      (annIds T.anns).Nodup →
      annEvents (s.applyStateReconciliation T).2
          = specDeleteEvents s.state.anns T.anns ++ specUpsertEvents s.state.anns T.anns
        ∧ (scEvents (s.applyStateReconciliation T).2).length
            = (annEvents (s.applyStateReconciliation T).2).length + 1
        ∧ { (s.applyStateReconciliation T).1.state with anns := T.anns } = T
        ∧ (∃ prev, (s.applyStateReconciliation T).2.getLast?
            = some (Event.stateChanged (s.applyStateReconciliation T).1.state prev))
        ∧ (∀ (c : AppState) (rest : List AppState), s.historyStack = c :: T :: rest →
            s.undo.2 = (s.applyStateReconciliation T).2)
        ∧ (∀ rest : List AppState, s.redoStack = T :: rest →
            s.redo.2 = (s.applyStateReconciliation T).2) := by
  intro s T hndC hndT
  refine ⟨?_, ?_, ?_, ?_, ?_, ?_⟩
  · rw [applyStateReconciliation_snd, annEvents_append, annEvents_append,
      reconcileDeletes_annEvents, reconcileUpserts_annEvents]
    have h3 : annEvents ((Store.reconcileUpserts s.state.anns T.anns
        (Store.reconcileDeletes T.anns s.state.anns s).1).1.setState (restPatch T)).2 = [] :=
      rfl
    rw [h3, List.append_nil]
    have h2 : T.anns.filterMap (fun t =>
        match mapGetAnn s.state.anns t.id with
        | none => some (Event.added t false)
        | some c => if c = t then none else some (Event.updated t.id t.toPatch false))
        = specUpsertEvents s.state.anns T.anns := by
      refine filterMapCongr T.anns _ _ ?_
      intro t _
      rw [mapGetAnn_eq_findAnn hndC]
    rw [h2]
    rfl
  · rw [applyStateReconciliation_snd, annEvents_append, annEvents_append,
      scEvents_append, scEvents_append]
    rw [List.length_append, List.length_append, List.length_append, List.length_append]
    have hd := reconcileDeletes_scEvents_length T.anns s.state.anns s
    have hu := reconcileUpserts_scEvents_length s.state.anns T.anns
      (Store.reconcileDeletes T.anns s.state.anns s).1
    have h3a : annEvents ((Store.reconcileUpserts s.state.anns T.anns
        (Store.reconcileDeletes T.anns s.state.anns s).1).1.setState (restPatch T)).2 = [] :=
      rfl
    have h3s : scEvents ((Store.reconcileUpserts s.state.anns T.anns
        (Store.reconcileDeletes T.anns s.state.anns s).1).1.setState (restPatch T)).2
        = [Event.stateChanged
            ((Store.reconcileUpserts s.state.anns T.anns
              (Store.reconcileDeletes T.anns s.state.anns s).1).1.setState (restPatch T)).1.state
            (Store.reconcileUpserts s.state.anns T.anns
              (Store.reconcileDeletes T.anns s.state.anns s).1).1.state] := rfl
    rw [hd, hu, h3a, h3s]
    simp
  · rfl
  · refine ⟨(Store.reconcileUpserts s.state.anns T.anns
      (Store.reconcileDeletes T.anns s.state.anns s).1).1.state, ?_⟩
    rw [applyStateReconciliation_snd]
    have h32 : ((Store.reconcileUpserts s.state.anns T.anns
        (Store.reconcileDeletes T.anns s.state.anns s).1).1.setState (restPatch T)).2
        = [Event.stateChanged (s.applyStateReconciliation T).1.state
            (Store.reconcileUpserts s.state.anns T.anns
              (Store.reconcileDeletes T.anns s.state.anns s).1).1.state] := rfl
    rw [h32]
    exact List.getLast?_concat _
  · intro c rest h
    rw [undo_of_cons s c T rest h]
    exact applyStateReconciliation_congr _ s T rfl
  · intro rest h
    rw [redo_of_cons s T rest h]
    exact applyStateReconciliation_congr _ s T rfl

/-- C2 witness: at storeX against targetC2 both id collections are
duplicate-free and the reconciliation trace is as stated. -/
theorem C2_witness :
    (annIds storeX.state.anns).Nodup
    ∧ (annIds targetC2.anns).Nodup
    ∧ (annEvents (storeX.applyStateReconciliation targetC2).2
          = specDeleteEvents storeX.state.anns targetC2.anns
            ++ specUpsertEvents storeX.state.anns targetC2.anns
        ∧ (scEvents (storeX.applyStateReconciliation targetC2).2).length
            = (annEvents (storeX.applyStateReconciliation targetC2).2).length + 1
        ∧ { (storeX.applyStateReconciliation targetC2).1.state with anns := targetC2.anns }
            = targetC2
        ∧ (∃ prev, (storeX.applyStateReconciliation targetC2).2.getLast?
            = some (Event.stateChanged (storeX.applyStateReconciliation targetC2).1.state prev))
        ∧ (∀ (c : AppState) (rest : List AppState),
            storeX.historyStack = c :: targetC2 :: rest →
            storeX.undo.2 = (storeX.applyStateReconciliation targetC2).2)
        ∧ (∀ rest : List AppState, storeX.redoStack = targetC2 :: rest →
            storeX.redo.2 = (storeX.applyStateReconciliation targetC2).2)) :=
  ⟨by decide, by decide, C2_diff_based_restore storeX targetC2 (by decide) (by decide)⟩

/-- Adding an annotation with a fresh id preserves duplicate-freeness of
the id collection. -/
theorem nodup_annIds_concat {l : List Ann} {a : Ann} (hnd : (annIds l).Nodup)
    (h : hasId l a.id = false) : (annIds (l ++ [a])).Nodup := by
  have he : annIds (l ++ [a]) = annIds l ++ [a.id] := by simp [annIds]
  rw [he]
  refine List.Nodup.append hnd (List.nodup_singleton _) ?_
  intro x hx hx2
  rw [List.mem_singleton.mp hx2] at hx
  obtain ⟨b, hb, hbid⟩ := List.mem_map.mp hx
  have hc : hasId l a.id = true := (hasId_eq_true_iff l a.id).mpr ⟨b, hb, hbid⟩
  rw [h] at hc
  cases hc

/-- A remote add walks into a snapshot not holding the id by appending the
annotation to the snapshot collection. -/
theorem injectIntoSnap_addA_fresh (snap : AppState) (a : Ann)
    (h : hasId snap.anns a.id = false) :
    injectIntoSnap a.id (RemoteAct.addA a) snap = { snap with anns := snap.anns ++ [a] } := by
  unfold injectIntoSnap
  rw [h]
  simp

/-- Restoring a snapshot brings every one of its annotations into the live
collection, provided the ids of the current state and of the target are
duplicate-free. -/
theorem applyStateReconciliation_mem (s : Store) (T : AppState)
    (hndC : (annIds s.state.anns).Nodup) (hndT : (annIds T.anns).Nodup) :
    ∀ t ∈ T.anns, t ∈ (s.applyStateReconciliation T).1.state.anns := by
  intro t ht
  have hsplit : (s.applyStateReconciliation T).1.state.anns
      = (Store.reconcileUpserts s.state.anns T.anns
          (Store.reconcileDeletes T.anns s.state.anns s).1).1.state.anns := rfl
  rw [hsplit]
  have h1 := reconcileDeletes_fst T.anns s.state.anns s
  have hfe : s.state.anns.filter (fun a => hasId T.anns a.id || !hasId s.state.anns a.id)
      = s.state.anns.filter (fun a => hasId T.anns a.id) := by
    refine List.filter_congr ?_
    intro a ha
    rw [hasId_of_mem ha]
    simp
  have hanns1 : (Store.reconcileDeletes T.anns s.state.anns s).1.state.anns
      = s.state.anns.filter (fun a => hasId T.anns a.id) := by
    rw [h1, withAnns_state_anns, hfe]
  have H1 : ∀ u ∈ T.anns, ∀ x ∈ (Store.reconcileDeletes T.anns s.state.anns s).1.state.anns,
      x.id = u.id → mapGetAnn s.state.anns u.id = some x := by
    intro u _ x hx hxi
    rw [hanns1] at hx
    rw [← hxi]
    exact mapGetAnn_nodup hndC (List.mem_of_mem_filter hx)
  have H2 : ∀ u ∈ T.anns, (mapGetAnn s.state.anns u.id).isSome = true →
      ∃ x ∈ (Store.reconcileDeletes T.anns s.state.anns s).1.state.anns, x.id = u.id := by
    intro u hu hsome
    obtain ⟨c, hc⟩ := Option.isSome_iff_exists.mp hsome
    obtain ⟨hcC, hcid⟩ := mapGetAnn_some hc
    refine ⟨c, ?_, hcid⟩
    rw [hanns1]
    refine List.mem_filter.mpr ⟨hcC, ?_⟩
    rw [hcid]
    exact hasId_of_mem hu
  obtain ⟨ihA, _⟩ := reconcileUpserts_mem s.state.anns T.anns
    (Store.reconcileDeletes T.anns s.state.anns s).1 hndT H1 H2
  exact ihA t ht

/-- C1 (amended).  Undo after a remote add: with snapshot S on top of the
history, P the snapshot below it, a local annotation L1 recorded in S and
also recorded with the same field values in P, and a remote annotation R
whose id occurs neither in S nor in P nor in the live state, a remote
addAnn of R followed by undo leaves a live collection that still contains
R and contains L1 with exactly the field values recorded in S; the id
collections of live state and of P are assumed duplicate-free, as the data
model requires. -/
theorem C1_undo_preserves_remote_amended :
    ∀ (s : Store) (S P : AppState) (rest : List AppState) (L1 R : Ann),
      s.historyStack = S :: P :: rest →
      L1 ∈ S.anns →
      L1 ∈ P.anns →
      hasId S.anns R.id = false →
      hasId P.anns R.id = false →
      hasId s.state.anns R.id = false →
      (annIds s.state.anns).Nodup →
      (annIds P.anns).Nodup →
      R ∈ (s.addAnn R true).1.undo.1.state.anns
        ∧ L1 ∈ (s.addAnn R true).1.undo.1.state.anns := by
  intro s S P rest L1 R hh hLS hLP hRS hRP hRC hndC hndP
  have hs1h : (s.addAnn R true).1.historyStack
      = injectIntoSnap R.id (RemoteAct.addA R) S
        :: injectIntoSnap R.id (RemoteAct.addA R) P
        :: rest.map (injectIntoSnap R.id (RemoteAct.addA R)) := by
    have hmap : (s.addAnn R true).1.historyStack
        = s.historyStack.map (injectIntoSnap R.id (RemoteAct.addA R)) := rfl
    rw [hmap, hh]
    rfl
  have hundo := undo_of_cons (s.addAnn R true).1 _ _ _ hs1h
  have hres : (s.addAnn R true).1.undo.1.state.anns
      = ((undoStaged (s.addAnn R true).1 (injectIntoSnap R.id (RemoteAct.addA R) S)
            (injectIntoSnap R.id (RemoteAct.addA R) P)
            (rest.map (injectIntoSnap R.id (RemoteAct.addA R)))).applyStateReconciliation
            (injectIntoSnap R.id (RemoteAct.addA R) P)).1.state.anns := by
    rw [hundo]
    rfl
  rw [hres, injectIntoSnap_addA_fresh P R hRP]
  have hstanns : (undoStaged (s.addAnn R true).1 (injectIntoSnap R.id (RemoteAct.addA R) S)
        ({ P with anns := P.anns ++ [R] })
        (rest.map (injectIntoSnap R.id (RemoteAct.addA R)))).state.anns
      = s.state.anns ++ [R] := addAnn_fst_state_anns s R true
  have hnd1 : (annIds (undoStaged (s.addAnn R true).1
        (injectIntoSnap R.id (RemoteAct.addA R) S) ({ P with anns := P.anns ++ [R] })
        (rest.map (injectIntoSnap R.id (RemoteAct.addA R)))).state.anns).Nodup := by
    rw [hstanns]
    exact nodup_annIds_concat hndC hRC
  have hnd2 : (annIds ({ P with anns := P.anns ++ [R] } : AppState).anns).Nodup :=
    nodup_annIds_concat hndP hRP
  have hmem := applyStateReconciliation_mem _ _ hnd1 hnd2
  constructor
  · exact hmem R (List.mem_append_right _ (List.mem_singleton.mpr rfl))
  · exact hmem L1 (List.mem_append_left _ hLP)

/-- C1 counterexample: at storeC1 the hypotheses of the claim hold (S with
L1 on top of the history, R fresh for S and the live state), yet after the
remote add of R and undo the live collection is exactly the singleton R:
the remote annotation survives but L1 is gone, because undo restores the
snapshot below S, which never held L1. -/
theorem C1_counterexample :
    annR ∈ (storeC1.addAnn annR true).1.undo.1.state.anns
    ∧ annL1 ∉ (storeC1.addAnn annR true).1.undo.1.state.anns := by
  refine ⟨by decide, by decide⟩

/-- C1 witness: at storeC1w every hypothesis of the amended claim holds
and both R and L1 are in the live collection after the remote add and the
undo. -/
theorem C1_witness :
    storeC1w.historyStack = stateWithL1 :: stateWithL1 :: []
    ∧ annL1 ∈ stateWithL1.anns
    ∧ hasId stateWithL1.anns annR.id = false
    ∧ hasId storeC1w.state.anns annR.id = false
    ∧ (annIds storeC1w.state.anns).Nodup
    ∧ (annR ∈ (storeC1w.addAnn annR true).1.undo.1.state.anns
        ∧ annL1 ∈ (storeC1w.addAnn annR true).1.undo.1.state.anns) :=
  ⟨rfl, by decide, by decide, by decide, by decide,
    C1_undo_preserves_remote_amended storeC1w stateWithL1 stateWithL1 [] annL1 annR rfl
      (by decide) (by decide) (by decide) (by decide) (by decide) (by decide) (by decide)⟩
